import Mathlib

/-!
Verification of the differential-copy engine of `localblocksync`
(`src/main.rs`), a tool that syncs a source file or block device onto a
destination, writing only the byte ranges that differ.

The shallow embedding below mirrors the Rust source:

* Files and buffers are `List Nat` (byte values; only equality of bytes
  matters to the algorithm).
* `filesize`-resolved sizes are list lengths.  A block device's capacity is
  the length of its content list.
* Sequential `read` calls fill the first `len` cells of the (persistent)
  buffer with the next `len = min (remaining) (buffer capacity)` bytes of the
  file and leave the tail of the buffer untouched, exactly like
  `File::read(&mut buffer)` on a regular file; the read cursor advances.
* `write_at` is a positioned write that does not move the read cursor;
  it is modelled by `writeAt` and additionally logged in a ghost trace
  `writes` (one entry per `write_at` call: absolute offset and data),
  so that claims counting or shaping write calls can be stated.
* `ftruncate64(fd, src_size)` is modelled by `truncateFile`.  The Rust code
  discards ftruncate's return value (line 154), so the model takes a
  `resizeFails` flag telling whether the ignored syscall actually resized;
  the control flow afterwards is identical in both cases, as in the code.
* The threaded mode spawns a worker per iteration that reads the source
  while the caller reads the destination, then joins before the comparison.
  The two reads touch disjoint data and the join is the only
  synchronization point, so the iteration's outcome is the same as reading
  source then destination sequentially; both modes therefore share `step`,
  which branches on `threaded` exactly where the two Rust loops differ:
  the write stage (whole-window write vs. the sub-block scan of lines
  210-241, modelled by `scanLoop`).
* Loops are given fuel; `src.length + 1` steps always suffice for the main
  loop and `n + 1` iterations for the scan of a window of length `n`
  (separate theorems settle the termination claims).
-/

namespace LocalBlockSync

/-- The slice `l[a .. b]` of a byte buffer, as in the Rust code. -/
def listSlice (l : List Nat) (a b : Nat) : List Nat :=
  (l.drop a).take (b - a)

/-- Positioned write (`FileExt::write_at`): overwrite `data.length` bytes of
`dst` starting at `pos`, extending the file (zero-filled gap) if the write
lands beyond the current end. -/
def writeAt (dst : List Nat) (pos : Nat) (data : List Nat) : List Nat :=
  dst.take pos ++ List.replicate (pos - dst.length) 0 ++ data ++
    dst.drop (pos + data.length)

/-- `ftruncate64` to `newSize` bytes: shrinking discards trailing bytes,
growing zero-extends. -/
def truncateFile (dst : List Nat) (newSize : Nat) : List Nat :=
  dst.take newSize ++ List.replicate (newSize - dst.length) 0

/-- Number of byte positions below `src.length` at which `src` and `dst`
differ (the destination counts as differing where it is shorter). -/
def diffBytes (src dst : List Nat) : Nat :=
  ((List.range src.length).filter fun j => decide (src[j]? ≠ dst[j]?)).length

/-- State of the main copy loop of `copy` (lines 175-269): the two read
cursors, the two persistent buffers, the destination content, the cursor
`fp`, the counter `bytes_written`, a stopped/mismatch flag pair, and the
ghost trace of `write_at` calls. -/
structure LoopState where
  running : Bool
  mismatch : Bool
  srcPos : Nat
  dstPos : Nat
  bufSrc : List Nat
  bufDst : List Nat
  dst : List Nat
  fp : Nat
  bw : Nat
  writes : List (Nat × List Nat)
  deriving Repr, DecidableEq

/-- The threaded-mode sub-block scan (lines 211-240).  `n` is `src_len`
(the window length), `bsp`/`bp`/`differ` are `block_start_pos`,
`block_pos` and `current_block_differ`.  Per iteration: the effective
block size is capped at `n - bp`; if the cap makes it zero the loop
flushes a still-open run and stops; otherwise the sub-block
`[bp, bp + bsize)` of the two buffers is compared, a differing block opens
(or continues) a run, an equal block flushes an open run with a single
`write_at` at absolute offset `fp + bsp`. -/
def scanLoop (fuel blockSize n fp : Nat) (bufSrc bufDst : List Nat)
    (bsp bp : Nat) (differ : Bool) (dst : List Nat) (bw : Nat)
    (ws : List (Nat × List Nat)) : List Nat × Nat × List (Nat × List Nat) :=
  match fuel with
  | 0 => (dst, bw, ws)
  | fuel + 1 =>
    let bsize := if blockSize + bp > n then n - bp else blockSize
    if blockSize + bp > n ∧ bsize = 0 then
      if differ then
        (writeAt dst (fp + bsp) (listSlice bufSrc bsp bp), bw + (bp - bsp),
          ws ++ [(fp + bsp, listSlice bufSrc bsp bp)])
      else (dst, bw, ws)
    else
      let nbp := bp + bsize
      if listSlice bufSrc bp nbp ≠ listSlice bufDst bp nbp then
        scanLoop fuel blockSize n fp bufSrc bufDst
          (if differ then bsp else bp) nbp true dst bw ws
      else
        if differ then
          scanLoop fuel blockSize n fp bufSrc bufDst bsp nbp false
            (writeAt dst (fp + bsp) (listSlice bufSrc bsp bp))
            (bw + (bp - bsp)) (ws ++ [(fp + bsp, listSlice bufSrc bsp bp)])
        else
          scanLoop fuel blockSize n fp bufSrc bufDst bsp nbp false dst bw ws

/-- Length returned by one sequential `read` of up to `bufSize` bytes from a
file of length `fileLen` whose read cursor is at `pos`. -/
def readLen (fileLen pos bufSize : Nat) : Nat :=
  min (fileLen - pos) bufSize

/-- Buffer content after one sequential `read` of `len` bytes from `file` at
cursor `pos` into `buf`: the first `len` cells are overwritten, the tail of
the buffer keeps its previous (stale) content. -/
def readBuf (file : List Nat) (pos len : Nat) (buf : List Nat) : List Nat :=
  listSlice file pos (pos + len) ++ buf.drop len

/-- Body of one iteration of the main copy loop, assuming the loop is still
running.  Both modes read a window of up to `bufSize` bytes from source and
destination into the persistent buffers, stop on a zero-length read, stop
flagging `mismatch` on unequal read lengths, skip the window when the two
whole buffers are equal, and otherwise write: threaded mode runs the
sub-block scan, un-threaded mode issues one `write_at` of the whole window
`buffer_src[0 .. src_len]` at `fp` and adds `src_len` to `bytes_written`.
Finally `fp += src_len`.  In the Rust code the two reads of an iteration
happen on two threads in threaded mode, joined before use; the outcome
equals the sequential reads modelled here. -/
def stepRun (bufSize blockSize : Nat) (threaded : Bool) (src : List Nat)
    (s : LoopState) : LoopState :=
    let srcLen := readLen src.length s.srcPos bufSize
    let dstLen := readLen s.dst.length s.dstPos bufSize
    let bufSrc := readBuf src s.srcPos srcLen s.bufSrc
    let bufDst := readBuf s.dst s.dstPos dstLen s.bufDst
    if srcLen = 0 ∨ dstLen = 0 then
      { s with running := false, srcPos := s.srcPos + srcLen,
               dstPos := s.dstPos + dstLen, bufSrc := bufSrc, bufDst := bufDst }
    else if srcLen ≠ dstLen then
      { s with running := false, mismatch := true, srcPos := s.srcPos + srcLen,
               dstPos := s.dstPos + dstLen, bufSrc := bufSrc, bufDst := bufDst }
    else if bufSrc = bufDst then
      { s with srcPos := s.srcPos + srcLen, dstPos := s.dstPos + dstLen,
               bufSrc := bufSrc, bufDst := bufDst, fp := s.fp + srcLen }
    else if threaded then
      let r := scanLoop (srcLen + 1) blockSize srcLen s.fp bufSrc bufDst
        0 0 false s.dst s.bw s.writes
      { s with srcPos := s.srcPos + srcLen, dstPos := s.dstPos + dstLen,
               bufSrc := bufSrc, bufDst := bufDst, dst := r.1, bw := r.2.1,
               writes := r.2.2, fp := s.fp + srcLen }
    else
      { s with srcPos := s.srcPos + srcLen, dstPos := s.dstPos + dstLen,
               bufSrc := bufSrc, bufDst := bufDst,
               dst := writeAt s.dst s.fp (bufSrc.take srcLen),
               bw := s.bw + srcLen,
               writes := s.writes ++ [(s.fp, bufSrc.take srcLen)],
               fp := s.fp + srcLen }

/-- One iteration of the main copy loop; a stopped state is a fixed
point. -/
def step (bufSize blockSize : Nat) (threaded : Bool) (src : List Nat)
    (s : LoopState) : LoopState :=
  if s.running = false then s
  else stepRun bufSize blockSize threaded src s

/-- Initial loop state: cursors and counters at zero, both buffers
zero-initialised (`vec![0u8; buffer_size]`). -/
def initState (bufSize : Nat) (dst : List Nat) : LoopState :=
  { running := true, mismatch := false, srcPos := 0, dstPos := 0,
    bufSrc := List.replicate bufSize 0, bufDst := List.replicate bufSize 0,
    dst := dst, fp := 0, bw := 0, writes := [] }

/-- The main copy loop run to completion: `src.length + 1` iterations always
reach a stop condition, after which `step` is the identity. -/
def copyCore (bufSize blockSize : Nat) (threaded : Bool)
    (src dst : List Nat) : LoopState :=
  (step bufSize blockSize threaded src)^[src.length + 1] (initState bufSize dst)

/-- Outcome of one `copy` invocation: empty source reported and nothing
done; block-device destination too small reported and nothing done; or the
copy loop ran (a length mismatch during the loop is recorded separately,
mirroring the "Read len are not equal !" message). -/
inductive CopyOutcome where
  | emptySource
  | destTooSmall
  | completed
  deriving Repr, DecidableEq

/-- Result of one `copy` invocation: outcome, final destination content,
final `bytes_written`, whether a read-length mismatch stopped the loop, and
the trace of `write_at` calls. -/
structure CopyResult where
  outcome : CopyOutcome
  dst : List Nat
  bw : Nat
  mismatch : Bool
  writes : List (Nat × List Nat)
  deriving Repr, DecidableEq

/-- Destination preparation (lines 151-159): a regular-file destination of
the wrong size is resized to `srcSize` (unless the ignored `ftruncate64`
call failed, in which case the code proceeds with the old size); a
block-device destination smaller than the source aborts (`none`). -/
def prepareDst (resizeFails : Bool) (srcSize : Nat) (dstIsBlock : Bool)
    (dst : List Nat) : Option (List Nat) :=
  if dst.length ≠ srcSize ∧ dstIsBlock = false then
    some (if resizeFails then dst else truncateFile dst srcSize)
  else if dstIsBlock ∧ dst.length < srcSize then none
  else some dst

/-- The `copy` function (lines 121-275) at byte granularity: empty-source
check, destination preparation, then the chunked compare-and-write loop.
`bufSize` and `blockSize` are the byte values the loop receives (the CLI
multiplies the `--buffer` and `--chunck` arguments by 1 MiB and 1 KiB
respectively, see `copy`). -/
def copyBytes (resizeFails : Bool) (bufSize blockSize : Nat) (threaded : Bool)
    (src : List Nat) (dstIsBlock : Bool) (dst : List Nat) : CopyResult :=
  if src.length = 0 then
    { outcome := .emptySource, dst := dst, bw := 0, mismatch := false, writes := [] }
  else
    match prepareDst resizeFails src.length dstIsBlock dst with
    | none =>
      { outcome := .destTooSmall, dst := dst, bw := 0, mismatch := false, writes := [] }
    | some d =>
      let fin := copyCore bufSize blockSize threaded src d
      { outcome := .completed, dst := fin.dst, bw := fin.bw,
        mismatch := fin.mismatch, writes := fin.writes }

/-- The `copy` entry point with the CLI units: `buffer` in MiB and `chunck`
in KiB (lines 161-162), no resize failure. -/
def copy (threaded : Bool) (bufferMB chunckKB : Nat) (src : List Nat)
    (dstIsBlock : Bool) (dst : List Nat) : CopyResult :=
  copyBytes false (1024 * 1024 * bufferMB) (1024 * chunckKB) threaded
    src dstIsBlock dst

/-- Checked truncated subtraction: `none` models an underflowing `usize`
subtraction. -/
def checkedSub (a b : Nat) : Option Nat :=
  if b ≤ a then some (a - b) else none

/-- Checked slice: `none` models an out-of-bounds `&buf[a .. b]`, which
panics in Rust. -/
def checkedSlice (l : List Nat) (a b : Nat) : Option (List Nat) :=
  if a ≤ b ∧ b ≤ l.length then some (listSlice l a b) else none

/-- The sub-block scan with every buffer slice bounds-checked and the
`src_len - block_pos` subtraction underflow-checked, to settle the safety
claim: `none` would mean a panic or underflow in the Rust code. -/
def scanLoopChecked (fuel blockSize n fp : Nat) (bufSrc bufDst : List Nat)
    (bsp bp : Nat) (differ : Bool) (dst : List Nat) (bw : Nat)
    (ws : List (Nat × List Nat)) :
    Option (List Nat × Nat × List (Nat × List Nat)) :=
  match fuel with
  | 0 => some (dst, bw, ws)
  | fuel + 1 =>
    match (if blockSize + bp > n then checkedSub n bp else some blockSize) with
    | none => none
    | some bsize =>
      if blockSize + bp > n ∧ bsize = 0 then
        if differ then
          match checkedSlice bufSrc bsp bp with
          | none => none
          | some run =>
            some (writeAt dst (fp + bsp) run, bw + (bp - bsp), ws ++ [(fp + bsp, run)])
        else some (dst, bw, ws)
      else
        match checkedSlice bufSrc bp (bp + bsize), checkedSlice bufDst bp (bp + bsize) with
        | some sblk, some dblk =>
          if sblk ≠ dblk then
            scanLoopChecked fuel blockSize n fp bufSrc bufDst
              (if differ then bsp else bp) (bp + bsize) true dst bw ws
          else
            if differ then
              match checkedSlice bufSrc bsp bp with
              | none => none
              | some run =>
                scanLoopChecked fuel blockSize n fp bufSrc bufDst bsp (bp + bsize) false
                  (writeAt dst (fp + bsp) run) (bw + (bp - bsp)) (ws ++ [(fp + bsp, run)])
            else
              scanLoopChecked fuel blockSize n fp bufSrc bufDst bsp (bp + bsize)
                false dst bw ws
        | _, _ => none

/-- A `write_at` call `(offset, data)` that covers exactly one contiguous
range of comparison sub-blocks of the window `[0, n)`, every one of which
differs between the two buffers (sub-blocks start at multiples of
`blockSize`; the final one is capped at `n`). -/
def goodWrite (blockSize n fp : Nat) (bufSrc bufDst : List Nat)
    (w : Nat × List Nat) : Prop :=
  ∃ s e, w.1 = fp + s ∧ w.2 = listSlice bufSrc s e ∧ s < e ∧ e ≤ n ∧
    blockSize ∣ s ∧
    ∀ k, blockSize ∣ k → s ≤ k → k < e →
      listSlice bufSrc k (min (k + blockSize) n) ≠
        listSlice bufDst k (min (k + blockSize) n)

/-! ### Basic facts about slices and positioned writes -/

theorem listSlice_length (l : List Nat) (a b : Nat) :
    (listSlice l a b).length = min (b - a) (l.length - a) := by
  simp [listSlice, List.length_take, List.length_drop]

theorem listSlice_length_of_le (l : List Nat) (a b : Nat)
    (hab : a ≤ b) (hb : b ≤ l.length) : (listSlice l a b).length = b - a := by
  rw [listSlice_length]; omega

theorem listSlice_getElem?_lt (l : List Nat) (a b i : Nat) (h : i < b - a) :
    (listSlice l a b)[i]? = l[a + i]? := by
  rw [listSlice, List.getElem?_take_of_lt h, List.getElem?_drop]

theorem listSlice_getElem?_ge (l : List Nat) (a b i : Nat) (h : b - a ≤ i) :
    (listSlice l a b)[i]? = none := by
  refine List.getElem?_eq_none ?_
  rw [listSlice_length]; omega

theorem listSlice_self (l : List Nat) (a : Nat) : listSlice l a a = [] := by
  simp [listSlice]

theorem getElem?_eq_of_listSlice_eq {l m : List Nat} {a b i : Nat}
    (h : listSlice l a b = listSlice m a b) (h1 : a ≤ i) (h2 : i < b) :
    l[i]? = m[i]? := by
  have := congrArg (fun t => t[i - a]?) h
  simp only at this
  rw [listSlice_getElem?_lt l a b _ (by omega),
    listSlice_getElem?_lt m a b _ (by omega)] at this
  have hai : a + (i - a) = i := by omega
  rwa [hai] at this

theorem listSlice_eq_of_getElem?_eq {l m : List Nat} {a b a' b' : Nat}
    (hpt : ∀ j, a ≤ j → j < b → l[j]? = m[j]?)
    (h1 : a ≤ a') (h3 : b' ≤ b) :
    listSlice l a' b' = listSlice m a' b' := by
  apply List.ext_getElem?
  intro i
  rcases lt_or_le i (b' - a') with hi | hi
  · rw [listSlice_getElem?_lt _ _ _ _ hi, listSlice_getElem?_lt _ _ _ _ hi]
    exact hpt (a' + i) (by omega) (by omega)
  · rw [listSlice_getElem?_ge _ _ _ _ hi, listSlice_getElem?_ge _ _ _ _ hi]

theorem writeAt_length (dst : List Nat) (pos : Nat) (data : List Nat)
    (h : pos + data.length ≤ dst.length) :
    (writeAt dst pos data).length = dst.length := by
  simp [writeAt, List.length_take, List.length_drop]
  omega

theorem writeAt_getElem? (dst : List Nat) (pos : Nat) (data : List Nat)
    (h : pos + data.length ≤ dst.length) (j : Nat) :
    (writeAt dst pos data)[j]? =
      if pos ≤ j ∧ j < pos + data.length then data[j - pos]? else dst[j]? := by
  have hrep : pos - dst.length = 0 := by omega
  have hlt : (dst.take pos).length = pos := by
    rw [List.length_take]; omega
  rw [writeAt, hrep, List.replicate_zero, List.append_nil, List.append_assoc]
  rcases lt_or_le j pos with hj | hj
  · rw [List.getElem?_append_left (by omega),
      List.getElem?_take_of_lt hj, if_neg (by omega)]
  · rw [List.getElem?_append_right (by omega), hlt]
    rcases lt_or_le j (pos + data.length) with hj2 | hj2
    · rw [List.getElem?_append_left (by omega), if_pos ⟨hj, hj2⟩]
    · rw [List.getElem?_append_right (by omega), if_neg (by omega),
        List.getElem?_drop]
      congr 1
      omega

theorem writeAt_nil (dst : List Nat) (pos : Nat) (h : pos ≤ dst.length) :
    writeAt dst pos [] = dst := by
  apply List.ext_getElem?
  intro j
  rw [writeAt_getElem? dst pos [] (by simpa using h) j]
  simp only [List.length_nil]
  rw [if_neg (by omega)]

theorem writeAt_self (dst : List Nat) (pos : Nat) (data : List Nat)
    (h : pos + data.length ≤ dst.length)
    (hc : ∀ i, i < data.length → data[i]? = dst[pos + i]?) :
    writeAt dst pos data = dst := by
  apply List.ext_getElem?
  intro j
  rw [writeAt_getElem? dst pos data h j]
  by_cases hj : pos ≤ j ∧ j < pos + data.length
  · rw [if_pos hj]
    have := hc (j - pos) (by omega)
    rwa [show pos + (j - pos) = j by omega] at this
  · rw [if_neg hj]

/-- Two consecutive flushes merge: writing `buf[bsp .. bp)` at `fp + bsp`
and later `buf[nbp .. n)` at `fp + nbp` equals writing `buf[bsp .. n)` at
`fp + bsp`, provided the gap `[bp, nbp)` already holds the source bytes. -/
theorem writeAt_merge (dst buf : List Nat) (fp bsp bp nbp n : Nat)
    (hb : bsp ≤ bp) (h2 : bp ≤ nbp) (h3 : nbp ≤ n) (hn : n ≤ buf.length)
    (hd : fp + n ≤ dst.length)
    (hgap : ∀ i, bp ≤ i → i < nbp → dst[fp + i]? = buf[i]?) :
    writeAt (writeAt dst (fp + bsp) (listSlice buf bsp bp)) (fp + nbp)
        (listSlice buf nbp n)
      = writeAt dst (fp + bsp) (listSlice buf bsp n) := by
  have l1 : (listSlice buf bsp bp).length = bp - bsp :=
    listSlice_length_of_le buf bsp bp hb (by omega)
  have l2 : (listSlice buf nbp n).length = n - nbp :=
    listSlice_length_of_le buf nbp n h3 hn
  have l3 : (listSlice buf bsp n).length = n - bsp :=
    listSlice_length_of_le buf bsp n (by omega) hn
  have hin : (writeAt dst (fp + bsp) (listSlice buf bsp bp)).length = dst.length :=
    writeAt_length dst (fp + bsp) _ (by omega)
  apply List.ext_getElem?
  intro j
  have e1 := writeAt_getElem? dst (fp + bsp) (listSlice buf bsp bp) (by omega) j
  have e2 := writeAt_getElem? (writeAt dst (fp + bsp) (listSlice buf bsp bp))
    (fp + nbp) (listSlice buf nbp n) (by omega) j
  have e3 := writeAt_getElem? dst (fp + bsp) (listSlice buf bsp n) (by omega) j
  rw [l1] at e1
  rw [l2] at e2
  rw [l3] at e3
  rw [e2, e3, e1]
  by_cases hj1 : fp + nbp ≤ j ∧ j < fp + nbp + (n - nbp)
  · rw [if_pos hj1, if_pos (show fp + bsp ≤ j ∧ j < fp + bsp + (n - bsp) by omega)]
    rw [listSlice_getElem?_lt buf nbp n _ (by omega),
      listSlice_getElem?_lt buf bsp n _ (by omega)]
    congr 1
    omega
  · rw [if_neg hj1]
    by_cases hj2 : fp + bsp ≤ j ∧ j < fp + bsp + (bp - bsp)
    · rw [if_pos hj2, if_pos (show fp + bsp ≤ j ∧ j < fp + bsp + (n - bsp) by omega)]
      rw [listSlice_getElem?_lt buf bsp bp _ (by omega),
        listSlice_getElem?_lt buf bsp n _ (by omega)]
    · rw [if_neg hj2]
      by_cases hj3 : fp + bsp ≤ j ∧ j < fp + bsp + (n - bsp)
      · rw [if_pos hj3]
        rw [listSlice_getElem?_lt buf bsp n _ (by omega)]
        have hg := hgap (j - fp) (by omega) (by omega)
        rw [show fp + (j - fp) = j by omega] at hg
        rw [hg]
        congr 1
        omega
      · rw [if_neg hj3]

/-! ### Unfolding and bounds for the sub-block scan -/

theorem scanLoop_succ (fuel blockSize n fp : Nat) (bufSrc bufDst : List Nat)
    (bsp bp : Nat) (differ : Bool) (dst : List Nat) (bw : Nat)
    (ws : List (Nat × List Nat)) :
    scanLoop (fuel + 1) blockSize n fp bufSrc bufDst bsp bp differ dst bw ws =
      if blockSize + bp > n ∧ (if blockSize + bp > n then n - bp else blockSize) = 0 then
        if differ then
          (writeAt dst (fp + bsp) (listSlice bufSrc bsp bp), bw + (bp - bsp),
            ws ++ [(fp + bsp, listSlice bufSrc bsp bp)])
        else (dst, bw, ws)
      else
        if listSlice bufSrc bp (bp + (if blockSize + bp > n then n - bp else blockSize)) ≠
            listSlice bufDst bp (bp + (if blockSize + bp > n then n - bp else blockSize)) then
          scanLoop fuel blockSize n fp bufSrc bufDst (if differ then bsp else bp)
            (bp + (if blockSize + bp > n then n - bp else blockSize)) true dst bw ws
        else
          if differ then
            scanLoop fuel blockSize n fp bufSrc bufDst bsp
              (bp + (if blockSize + bp > n then n - bp else blockSize)) false
              (writeAt dst (fp + bsp) (listSlice bufSrc bsp bp))
              (bw + (bp - bsp)) (ws ++ [(fp + bsp, listSlice bufSrc bsp bp)])
          else
            scanLoop fuel blockSize n fp bufSrc bufDst bsp
              (bp + (if blockSize + bp > n then n - bp else blockSize)) false dst bw ws :=
  rfl

/-- At `block_pos = n` (window exhausted) the scan flushes a pending run and
stops. -/
theorem scanLoop_succ_stop (fuel blockSize n fp : Nat) (bufSrc bufDst : List Nat)
    (bsp : Nat) (differ : Bool) (dst : List Nat) (bw : Nat)
    (ws : List (Nat × List Nat)) (hbs : 1 ≤ blockSize) :
    scanLoop (fuel + 1) blockSize n fp bufSrc bufDst bsp n differ dst bw ws =
      if differ then
        (writeAt dst (fp + bsp) (listSlice bufSrc bsp n), bw + (n - bsp),
          ws ++ [(fp + bsp, listSlice bufSrc bsp n)])
      else (dst, bw, ws) := by
  rw [scanLoop_succ]
  rw [if_pos ⟨by omega, by rw [if_pos (by omega)]; omega⟩]

/-- At `block_pos < n` the scan compares the sub-block
`[bp, min (bp + blockSize) n)` and recurses. -/
theorem scanLoop_succ_go (fuel blockSize n fp : Nat) (bufSrc bufDst : List Nat)
    (bsp bp : Nat) (differ : Bool) (dst : List Nat) (bw : Nat)
    (ws : List (Nat × List Nat)) (hlt : bp < n) :
    scanLoop (fuel + 1) blockSize n fp bufSrc bufDst bsp bp differ dst bw ws =
      if listSlice bufSrc bp (min (bp + blockSize) n) ≠
          listSlice bufDst bp (min (bp + blockSize) n) then
        scanLoop fuel blockSize n fp bufSrc bufDst (if differ then bsp else bp)
          (min (bp + blockSize) n) true dst bw ws
      else
        if differ then
          scanLoop fuel blockSize n fp bufSrc bufDst bsp (min (bp + blockSize) n) false
            (writeAt dst (fp + bsp) (listSlice bufSrc bsp bp))
            (bw + (bp - bsp)) (ws ++ [(fp + bsp, listSlice bufSrc bsp bp)])
        else
          scanLoop fuel blockSize n fp bufSrc bufDst bsp (min (bp + blockSize) n)
            false dst bw ws := by
  rw [scanLoop_succ]
  by_cases hcap : blockSize + bp > n
  · rw [if_neg (by rw [if_pos hcap]; omega)]
    rw [if_pos hcap, show min (bp + blockSize) n = bp + (n - bp) from by omega]
  · rw [if_neg (by intro hc; exact hcap hc.1)]
    rw [if_neg hcap, show min (bp + blockSize) n = bp + blockSize from by omega]

/-- The scan only ever increases `bytes_written`, by at most the part of the
window at or after the open run (holds for any fuel and block size). -/
theorem scanLoop_bw_bounds (blockSize n fp : Nat) (bufSrc bufDst : List Nat) :
    ∀ fuel bsp bp (differ : Bool) (dst : List Nat) (bw : Nat)
      (ws : List (Nat × List Nat)), bsp ≤ bp → bp ≤ n →
      bw ≤ (scanLoop fuel blockSize n fp bufSrc bufDst bsp bp differ dst bw ws).2.1 ∧
      (scanLoop fuel blockSize n fp bufSrc bufDst bsp bp differ dst bw ws).2.1 ≤
        bw + (n - (if differ then bsp else bp)) := by
  intro fuel
  induction fuel with
  | zero => intro bsp bp differ dst bw ws h1 h2; constructor <;> simp [scanLoop]
  | succ m ih =>
    intro bsp bp differ dst bw ws h1 h2
    rw [scanLoop_succ]
    by_cases hstop : blockSize + bp > n ∧ (if blockSize + bp > n then n - bp else blockSize) = 0
    · rw [if_pos hstop]
      cases differ <;> (simp; try omega)
    · rw [if_neg hstop]
      have hnbp : bp ≤ bp + (if blockSize + bp > n then n - bp else blockSize) := by omega
      have hnbn : bp + (if blockSize + bp > n then n - bp else blockSize) ≤ n := by
        by_cases hcap : blockSize + bp > n
        · rw [if_pos hcap]; omega
        · rw [if_neg hcap]; omega
      by_cases hne : listSlice bufSrc bp (bp + (if blockSize + bp > n then n - bp else blockSize)) ≠
          listSlice bufDst bp (bp + (if blockSize + bp > n then n - bp else blockSize))
      · rw [if_pos hne]
        have hih := ih (if differ then bsp else bp)
          (bp + (if blockSize + bp > n then n - bp else blockSize)) true dst bw ws
          (by split; omega; omega) hnbn
        cases differ <;> simp at hih ⊢ <;> omega
      · rw [if_neg hne]
        cases differ
        · have hih := ih bsp (bp + (if blockSize + bp > n then n - bp else blockSize))
            false dst bw ws (by omega) hnbn
          simp at hih ⊢
          omega
        · have hih := ih bsp (bp + (if blockSize + bp > n then n - bp else blockSize))
            false (writeAt dst (fp + bsp) (listSlice bufSrc bsp bp)) (bw + (bp - bsp))
            (ws ++ [(fp + bsp, listSlice bufSrc bsp bp)]) (by omega) hnbn
          simp at hih ⊢
          omega

/-- Main characterisation of the sub-block scan on a window of length `n`:
started from `(bsp, bp, differ)` with enough fuel, and with the destination
window linked to the destination buffer, it ends with the destination equal
to `dst` overwritten by the source buffer from the open-run start on, the
counter increased by exactly the total length of the newly issued writes
(at most the remaining window), and every issued write covering one
contiguous range of all-differing sub-blocks. -/
theorem scanLoop_spec (blockSize n fp : Nat) (bufSrc bufDst : List Nat)
    (hbs : 1 ≤ blockSize) (hsrc : n ≤ bufSrc.length) :
    ∀ fuel bsp bp (differ : Bool) (dst : List Nat) (bw : Nat)
      (ws : List (Nat × List Nat)),
      n - bp < fuel → bp ≤ n → (blockSize ∣ bp ∨ bp = n) →
      fp + n ≤ dst.length →
      (∀ i, bp ≤ i → i < n → dst[fp + i]? = bufDst[i]?) →
      (differ = true → bsp < bp ∧ blockSize ∣ bsp ∧
        ∀ k, blockSize ∣ k → bsp ≤ k → k < bp →
          listSlice bufSrc k (min (k + blockSize) n) ≠
            listSlice bufDst k (min (k + blockSize) n)) →
      ∃ nws,
        scanLoop fuel blockSize n fp bufSrc bufDst bsp bp differ dst bw ws
          = (writeAt dst (fp + (if differ then bsp else bp))
               (listSlice bufSrc (if differ then bsp else bp) n),
             bw + (nws.map fun w => w.2.length).sum, ws ++ nws) ∧
        (nws.map fun w => w.2.length).sum ≤ n - (if differ then bsp else bp) ∧
        ∀ w ∈ nws, goodWrite blockSize n fp bufSrc bufDst w := by
  intro fuel
  induction fuel with
  | zero => intro bsp bp differ dst bw ws hfuel; omega
  | succ m ih =>
    intro bsp bp differ dst bw ws hfuel hbp halign hdlen hwin hdiff
    rcases eq_or_lt_of_le hbp with hbpn | hbpn
    · subst hbpn
      rw [scanLoop_succ_stop _ _ _ _ _ _ _ _ _ _ _ hbs]
      cases differ
      · refine ⟨[], ?_, by simp, by simp⟩
        simp only [Bool.false_eq_true, if_false]
        rw [listSlice_self, writeAt_nil dst (fp + bp) (by omega)]
        simp
      · obtain ⟨hlt, hdv, hall⟩ := hdiff rfl
        have hlsl : (listSlice bufSrc bsp bp).length = bp - bsp :=
          listSlice_length_of_le bufSrc bsp bp (by omega) (by omega)
        refine ⟨[(fp + bsp, listSlice bufSrc bsp bp)], ?_, ?_, ?_⟩
        · simp [hlsl]
        · simp [hlsl]
        · intro w hw
          rw [List.mem_singleton] at hw
          subst hw
          exact ⟨bsp, bp, rfl, rfl, hlt, le_refl _, hdv, hall⟩
    · rw [scanLoop_succ_go _ _ _ _ _ _ _ _ _ _ _ _ hbpn]
      set nbp := min (bp + blockSize) n with hnbp
      have hbpnbp : bp < nbp := by omega
      have hnbpn : nbp ≤ n := by omega
      have hdvbp : blockSize ∣ bp := by
        rcases halign with h | h
        · exact h
        · omega
      have halign' : blockSize ∣ nbp ∨ nbp = n := by
        rcases le_or_lt (bp + blockSize) n with hle | hlt2
        · left
          rw [hnbp, min_eq_left hle]
          exact Nat.dvd_add hdvbp dvd_rfl
        · right
          omega
      have hkey : ∀ k, blockSize ∣ k → bp ≤ k → k < nbp → k = bp := by
        intro k hdk hk1 hk2
        have hd : blockSize ∣ (k - bp) := Nat.dvd_sub' hdk hdvbp
        have hz : k - bp = 0 := Nat.eq_zero_of_dvd_of_lt hd (by omega) |>.symm ▸ rfl
        omega
      by_cases hne : listSlice bufSrc bp nbp ≠ listSlice bufDst bp nbp
      · rw [if_pos hne]
        have hdiff' : (true : Bool) = true → (if differ then bsp else bp) < nbp ∧
            blockSize ∣ (if differ then bsp else bp) ∧
            ∀ k, blockSize ∣ k → (if differ then bsp else bp) ≤ k → k < nbp →
              listSlice bufSrc k (min (k + blockSize) n) ≠
                listSlice bufDst k (min (k + blockSize) n) := by
          intro _
          cases differ
          · simp only [Bool.false_eq_true, if_false]
            refine ⟨hbpnbp, hdvbp, ?_⟩
            intro k hdk hk1 hk2
            have hk := hkey k hdk hk1 hk2
            subst hk
            rwa [← hnbp]
          · obtain ⟨h1, h2, h3⟩ := hdiff rfl
            simp only [if_true]
            refine ⟨by omega, h2, ?_⟩
            intro k hdk hk1 hk2
            rcases lt_or_le k bp with hk | hk
            · exact h3 k hdk hk1 hk
            · have hk' := hkey k hdk hk hk2
              subst hk'
              rwa [← hnbp]
        obtain ⟨nws, heq, hbound, hgood⟩ := ih (if differ then bsp else bp) nbp true
          dst bw ws (by omega) hnbpn halign' hdlen
          (fun i h1 h2 => hwin i (by omega) h2) hdiff'
        refine ⟨nws, ?_, ?_, hgood⟩
        · rw [heq]
          simp only [if_true]
        · simp only [if_true] at hbound
          omega
      · rw [if_neg hne]
        push_neg at hne
        have hgap : ∀ i, bp ≤ i → i < nbp → dst[fp + i]? = bufSrc[i]? := by
          intro i hi1 hi2
          rw [hwin i hi1 (by omega)]
          exact (getElem?_eq_of_listSlice_eq hne hi1 hi2).symm
        cases differ
        · obtain ⟨nws, heq, hbound, hgood⟩ := ih bsp nbp false dst bw ws
            (by omega) hnbpn halign' hdlen
            (fun i h1 h2 => hwin i (by omega) h2) (by simp)
          refine ⟨nws, ?_, ?_, hgood⟩
          · rw [heq]
            have hm := writeAt_merge dst bufSrc fp bp bp nbp n (le_refl bp)
              (le_of_lt hbpnbp) hnbpn hsrc hdlen hgap
            rw [listSlice_self, writeAt_nil dst (fp + bp) (by omega)] at hm
            simp only [Bool.false_eq_true, if_false]
            rw [hm]
          · simp only [Bool.false_eq_true, if_false] at hbound ⊢
            omega
        · obtain ⟨h1d, h2d, h3d⟩ := hdiff rfl
          have hlsl : (listSlice bufSrc bsp bp).length = bp - bsp :=
            listSlice_length_of_le bufSrc bsp bp (by omega) (by omega)
          have hlenF : (writeAt dst (fp + bsp) (listSlice bufSrc bsp bp)).length
              = dst.length := writeAt_length _ _ _ (by omega)
          have hwinF : ∀ i, nbp ≤ i → i < n →
              (writeAt dst (fp + bsp) (listSlice bufSrc bsp bp))[fp + i]? = bufDst[i]? := by
            intro i hi1 hi2
            have e := writeAt_getElem? dst (fp + bsp) (listSlice bufSrc bsp bp)
              (by omega) (fp + i)
            rw [hlsl] at e
            rw [e, if_neg (by omega)]
            exact hwin i (by omega) hi2
          obtain ⟨nws, heq, hbound, hgood⟩ := ih bsp nbp false
            (writeAt dst (fp + bsp) (listSlice bufSrc bsp bp)) (bw + (bp - bsp))
            (ws ++ [(fp + bsp, listSlice bufSrc bsp bp)])
            (by omega) hnbpn halign' (by rw [hlenF]; exact hdlen) hwinF (by simp)
          refine ⟨(fp + bsp, listSlice bufSrc bsp bp) :: nws, ?_, ?_, ?_⟩
          · rw [heq]
            have hm := writeAt_merge dst bufSrc fp bsp bp nbp n (le_of_lt h1d)
              (le_of_lt hbpnbp) hnbpn hsrc hdlen hgap
            simp only [Bool.false_eq_true, if_false, if_true]
            rw [hm]
            simp only [Prod.mk.injEq, List.map_cons, List.sum_cons, hlsl, true_and]
            exact ⟨by omega, by simp⟩
          · simp only [if_true, List.map_cons, List.sum_cons, hlsl]
            simp only [Bool.false_eq_true, if_false] at hbound
            omega
          · intro w hw
            rcases List.mem_cons.mp hw with hw | hw
            · subst hw
              exact ⟨bsp, bp, rfl, rfl, h1d, by omega, h2d, h3d⟩
            · exact hgood w hw

/-! ### Reads and single-iteration equations -/

theorem readLen_le_rem (fileLen pos bufSize : Nat) :
    readLen fileLen pos bufSize ≤ fileLen - pos := min_le_left _ _

theorem readLen_le_buf (fileLen pos bufSize : Nat) :
    readLen fileLen pos bufSize ≤ bufSize := min_le_right _ _

theorem readLen_eq_zero {fileLen pos bufSize : Nat} (hb : 1 ≤ bufSize) :
    readLen fileLen pos bufSize = 0 ↔ fileLen ≤ pos := by
  rw [readLen]; omega

theorem readBuf_length (file : List Nat) (pos len : Nat) (buf : List Nat)
    (h : len ≤ file.length - pos) (hb : len ≤ buf.length) :
    (readBuf file pos len buf).length = buf.length := by
  rw [readBuf, List.length_append, listSlice_length, List.length_drop]
  omega

theorem listSlice_readLen_length (file : List Nat) (pos bufSize : Nat) :
    (listSlice file pos (pos + readLen file.length pos bufSize)).length =
      readLen file.length pos bufSize := by
  rw [listSlice_length, readLen]
  omega

theorem readBuf_getElem?_lt (file : List Nat) (pos len : Nat) (buf : List Nat)
    (i : Nat) (hi : i < len) (h : len ≤ file.length - pos) :
    (readBuf file pos len buf)[i]? = file[pos + i]? := by
  rw [readBuf, List.getElem?_append_left
    (by rw [listSlice_length]; omega), listSlice_getElem?_lt _ _ _ _ (by omega)]

theorem readBuf_take (file : List Nat) (pos len : Nat) (buf : List Nat)
    (h : len ≤ file.length - pos) :
    (readBuf file pos len buf).take len = listSlice file pos (pos + len) := by
  rw [readBuf]
  exact List.take_left' (by rw [listSlice_length]; omega)

theorem step_not_running (bufSize blockSize : Nat) (threaded : Bool)
    (src : List Nat) (s : LoopState) (h : s.running = false) :
    step bufSize blockSize threaded src s = s := by
  simp [step, h]

theorem step_of_running (bufSize blockSize : Nat) (threaded : Bool)
    (src : List Nat) (s : LoopState) (h : s.running = true) :
    step bufSize blockSize threaded src s = stepRun bufSize blockSize threaded src s := by
  simp [step, h]

theorem stepRun_stop (bufSize blockSize : Nat) (threaded : Bool)
    (src : List Nat) (s : LoopState)
    (h : readLen src.length s.srcPos bufSize = 0 ∨
      readLen s.dst.length s.dstPos bufSize = 0) :
    stepRun bufSize blockSize threaded src s =
      { s with running := false,
               srcPos := s.srcPos + readLen src.length s.srcPos bufSize,
               dstPos := s.dstPos + readLen s.dst.length s.dstPos bufSize,
               bufSrc := readBuf src s.srcPos (readLen src.length s.srcPos bufSize) s.bufSrc,
               bufDst := readBuf s.dst s.dstPos (readLen s.dst.length s.dstPos bufSize) s.bufDst } := by
  simp only [stepRun]
  rw [if_pos h]

theorem stepRun_mismatch (bufSize blockSize : Nat) (threaded : Bool)
    (src : List Nat) (s : LoopState)
    (h : ¬(readLen src.length s.srcPos bufSize = 0 ∨
      readLen s.dst.length s.dstPos bufSize = 0))
    (h2 : readLen src.length s.srcPos bufSize ≠
      readLen s.dst.length s.dstPos bufSize) :
    stepRun bufSize blockSize threaded src s =
      { s with running := false, mismatch := true,
               srcPos := s.srcPos + readLen src.length s.srcPos bufSize,
               dstPos := s.dstPos + readLen s.dst.length s.dstPos bufSize,
               bufSrc := readBuf src s.srcPos (readLen src.length s.srcPos bufSize) s.bufSrc,
               bufDst := readBuf s.dst s.dstPos (readLen s.dst.length s.dstPos bufSize) s.bufDst } := by
  simp only [stepRun]
  rw [if_neg h, if_pos h2]

theorem stepRun_skip (bufSize blockSize : Nat) (threaded : Bool)
    (src : List Nat) (s : LoopState)
    (h : ¬(readLen src.length s.srcPos bufSize = 0 ∨
      readLen s.dst.length s.dstPos bufSize = 0))
    (h2 : readLen src.length s.srcPos bufSize =
      readLen s.dst.length s.dstPos bufSize)
    (h3 : readBuf src s.srcPos (readLen src.length s.srcPos bufSize) s.bufSrc =
      readBuf s.dst s.dstPos (readLen s.dst.length s.dstPos bufSize) s.bufDst) :
    stepRun bufSize blockSize threaded src s =
      { s with srcPos := s.srcPos + readLen src.length s.srcPos bufSize,
               dstPos := s.dstPos + readLen s.dst.length s.dstPos bufSize,
               bufSrc := readBuf src s.srcPos (readLen src.length s.srcPos bufSize) s.bufSrc,
               bufDst := readBuf s.dst s.dstPos (readLen s.dst.length s.dstPos bufSize) s.bufDst,
               fp := s.fp + readLen src.length s.srcPos bufSize } := by
  simp only [stepRun]
  rw [if_neg h, if_neg (by simpa using h2), if_pos h3]

theorem stepRun_scan (bufSize blockSize : Nat)
    (src : List Nat) (s : LoopState)
    (h : ¬(readLen src.length s.srcPos bufSize = 0 ∨
      readLen s.dst.length s.dstPos bufSize = 0))
    (h2 : readLen src.length s.srcPos bufSize =
      readLen s.dst.length s.dstPos bufSize)
    (h3 : readBuf src s.srcPos (readLen src.length s.srcPos bufSize) s.bufSrc ≠
      readBuf s.dst s.dstPos (readLen s.dst.length s.dstPos bufSize) s.bufDst) :
    stepRun bufSize blockSize true src s =
      { s with srcPos := s.srcPos + readLen src.length s.srcPos bufSize,
               dstPos := s.dstPos + readLen s.dst.length s.dstPos bufSize,
               bufSrc := readBuf src s.srcPos (readLen src.length s.srcPos bufSize) s.bufSrc,
               bufDst := readBuf s.dst s.dstPos (readLen s.dst.length s.dstPos bufSize) s.bufDst,
               dst := (scanLoop (readLen src.length s.srcPos bufSize + 1) blockSize
                 (readLen src.length s.srcPos bufSize) s.fp
                 (readBuf src s.srcPos (readLen src.length s.srcPos bufSize) s.bufSrc)
                 (readBuf s.dst s.dstPos (readLen s.dst.length s.dstPos bufSize) s.bufDst)
                 0 0 false s.dst s.bw s.writes).1,
               bw := (scanLoop (readLen src.length s.srcPos bufSize + 1) blockSize
                 (readLen src.length s.srcPos bufSize) s.fp
                 (readBuf src s.srcPos (readLen src.length s.srcPos bufSize) s.bufSrc)
                 (readBuf s.dst s.dstPos (readLen s.dst.length s.dstPos bufSize) s.bufDst)
                 0 0 false s.dst s.bw s.writes).2.1,
               writes := (scanLoop (readLen src.length s.srcPos bufSize + 1) blockSize
                 (readLen src.length s.srcPos bufSize) s.fp
                 (readBuf src s.srcPos (readLen src.length s.srcPos bufSize) s.bufSrc)
                 (readBuf s.dst s.dstPos (readLen s.dst.length s.dstPos bufSize) s.bufDst)
                 0 0 false s.dst s.bw s.writes).2.2,
               fp := s.fp + readLen src.length s.srcPos bufSize } := by
  simp only [stepRun]
  rw [if_neg h, if_neg (by simpa using h2), if_neg h3, if_pos trivial]

theorem stepRun_write (bufSize blockSize : Nat)
    (src : List Nat) (s : LoopState)
    (h : ¬(readLen src.length s.srcPos bufSize = 0 ∨
      readLen s.dst.length s.dstPos bufSize = 0))
    (h2 : readLen src.length s.srcPos bufSize =
      readLen s.dst.length s.dstPos bufSize)
    (h3 : readBuf src s.srcPos (readLen src.length s.srcPos bufSize) s.bufSrc ≠
      readBuf s.dst s.dstPos (readLen s.dst.length s.dstPos bufSize) s.bufDst) :
    stepRun bufSize blockSize false src s =
      { s with srcPos := s.srcPos + readLen src.length s.srcPos bufSize,
               dstPos := s.dstPos + readLen s.dst.length s.dstPos bufSize,
               bufSrc := readBuf src s.srcPos (readLen src.length s.srcPos bufSize) s.bufSrc,
               bufDst := readBuf s.dst s.dstPos (readLen s.dst.length s.dstPos bufSize) s.bufDst,
               dst := writeAt s.dst s.fp
                 ((readBuf src s.srcPos (readLen src.length s.srcPos bufSize) s.bufSrc).take
                   (readLen src.length s.srcPos bufSize)),
               bw := s.bw + readLen src.length s.srcPos bufSize,
               writes := s.writes ++ [(s.fp,
                 (readBuf src s.srcPos (readLen src.length s.srcPos bufSize) s.bufSrc).take
                   (readLen src.length s.srcPos bufSize))],
               fp := s.fp + readLen src.length s.srcPos bufSize } := by
  simp only [stepRun]
  rw [if_neg h, if_neg (by simpa using h2), if_neg h3, if_neg (by simp)]

/-! ### Cursor and counter invariants of the main loop -/

/-- Unconditional arithmetic invariant of the loop: the cursor never exceeds
the source read position, the read position never exceeds the source size,
and the bytes-written counter never exceeds the cursor. -/
def arithInv (src : List Nat) (s : LoopState) : Prop :=
  s.fp ≤ s.srcPos ∧ s.srcPos ≤ src.length ∧ s.bw ≤ s.fp

theorem arithInv_init (src : List Nat) (bufSize : Nat) (dst : List Nat) :
    arithInv src (initState bufSize dst) :=
  ⟨le_refl 0, Nat.zero_le _, le_refl 0⟩

/-- One loop iteration preserves the arithmetic invariant and moves the
cursor and the counter monotonically. -/
theorem arithInv_step (bufSize blockSize : Nat) (threaded : Bool)
    (src : List Nat) (s : LoopState) (h : arithInv src s) :
    arithInv src (step bufSize blockSize threaded src s) ∧
    s.fp ≤ (step bufSize blockSize threaded src s).fp ∧
    s.bw ≤ (step bufSize blockSize threaded src s).bw := by
  obtain ⟨h1, h2, h3⟩ := h
  rcases Bool.eq_false_or_eq_true s.running with hr | hr
  · rw [step_of_running _ _ _ _ _ hr]
    have hLrem := readLen_le_rem src.length s.srcPos bufSize
    by_cases hc1 : readLen src.length s.srcPos bufSize = 0 ∨
        readLen s.dst.length s.dstPos bufSize = 0
    · rw [stepRun_stop _ _ _ _ _ hc1]
      refine ⟨⟨by dsimp; omega, by dsimp; omega, by dsimp; omega⟩,
        by dsimp; omega, by dsimp; omega⟩
    · by_cases hc2 : readLen src.length s.srcPos bufSize =
          readLen s.dst.length s.dstPos bufSize
      · by_cases hc3 : readBuf src s.srcPos (readLen src.length s.srcPos bufSize) s.bufSrc =
            readBuf s.dst s.dstPos (readLen s.dst.length s.dstPos bufSize) s.bufDst
        · rw [stepRun_skip _ _ _ _ _ hc1 hc2 hc3]
          refine ⟨⟨by dsimp; omega, by dsimp; omega, by dsimp; omega⟩,
            by dsimp; omega, by dsimp; omega⟩
        · cases threaded
          · rw [stepRun_write _ _ _ _ hc1 hc2 hc3]
            refine ⟨⟨by dsimp; omega, by dsimp; omega, by dsimp; omega⟩,
              by dsimp; omega, by dsimp; omega⟩
          · rw [stepRun_scan _ _ _ _ hc1 hc2 hc3]
            have hbw := scanLoop_bw_bounds blockSize
              (readLen src.length s.srcPos bufSize) s.fp
              (readBuf src s.srcPos (readLen src.length s.srcPos bufSize) s.bufSrc)
              (readBuf s.dst s.dstPos (readLen s.dst.length s.dstPos bufSize) s.bufDst)
              (readLen src.length s.srcPos bufSize + 1) 0 0 false s.dst s.bw s.writes
              (le_refl 0) (Nat.zero_le _)
            refine ⟨⟨by dsimp; omega, by dsimp; omega, ?_⟩, by dsimp; omega, ?_⟩
            · dsimp
              simp only [Bool.false_eq_true, if_false] at hbw
              omega
            · dsimp
              exact hbw.1
      · rw [stepRun_mismatch _ _ _ _ _ hc1 hc2]
        refine ⟨⟨by dsimp; omega, by dsimp; omega, by dsimp; omega⟩,
          by dsimp; omega, by dsimp; omega⟩
  · rw [step_not_running _ _ _ _ _ hr]
    exact ⟨⟨h1, h2, h3⟩, le_refl _, le_refl _⟩

theorem arithInv_iterate (bufSize blockSize : Nat) (threaded : Bool)
    (src dst : List Nat) (k : Nat) :
    arithInv src ((step bufSize blockSize threaded src)^[k] (initState bufSize dst)) := by
  induction k with
  | zero => exact arithInv_init src bufSize dst
  | succ m ihm =>
    rw [Function.iterate_succ_apply']
    exact (arithInv_step bufSize blockSize threaded src _ ihm).1

/-- If an iteration leaves the loop running, it was a regular window: both
reads non-empty and of equal length, and the positions and cursor advanced
by the window length. -/
theorem step_continue (bufSize blockSize : Nat) (threaded : Bool)
    (src : List Nat) (s : LoopState)
    (h : (step bufSize blockSize threaded src s).running = true) :
    s.running = true ∧
    ¬(readLen src.length s.srcPos bufSize = 0 ∨
      readLen s.dst.length s.dstPos bufSize = 0) ∧
    readLen src.length s.srcPos bufSize = readLen s.dst.length s.dstPos bufSize ∧
    (step bufSize blockSize threaded src s).srcPos =
      s.srcPos + readLen src.length s.srcPos bufSize ∧
    (step bufSize blockSize threaded src s).dstPos =
      s.dstPos + readLen s.dst.length s.dstPos bufSize ∧
    (step bufSize blockSize threaded src s).fp =
      s.fp + readLen src.length s.srcPos bufSize ∧
    (step bufSize blockSize threaded src s).mismatch = s.mismatch := by
  rcases Bool.eq_false_or_eq_true s.running with hr | hr
  case inr =>
    rw [step_not_running _ _ _ _ _ hr] at h
    rw [hr] at h
    cases h
  case inl =>
    rw [step_of_running _ _ _ _ _ hr] at h ⊢
    by_cases hc1 : readLen src.length s.srcPos bufSize = 0 ∨
        readLen s.dst.length s.dstPos bufSize = 0
    · rw [stepRun_stop _ _ _ _ _ hc1] at h
      cases h
    · by_cases hc2 : readLen src.length s.srcPos bufSize =
          readLen s.dst.length s.dstPos bufSize
      · by_cases hc3 : readBuf src s.srcPos (readLen src.length s.srcPos bufSize) s.bufSrc =
            readBuf s.dst s.dstPos (readLen s.dst.length s.dstPos bufSize) s.bufDst
        · rw [stepRun_skip _ _ _ _ _ hc1 hc2 hc3]
          exact ⟨hr, hc1, hc2, rfl, rfl, rfl, rfl⟩
        · cases threaded
          · rw [stepRun_write _ _ _ _ hc1 hc2 hc3]
            exact ⟨hr, hc1, hc2, rfl, rfl, rfl, rfl⟩
          · rw [stepRun_scan _ _ _ _ hc1 hc2 hc3]
            exact ⟨hr, hc1, hc2, rfl, rfl, rfl, rfl⟩
      · rw [stepRun_mismatch _ _ _ _ _ hc1 hc2] at h
        cases h

/-- A state that has stopped stays stopped and unchanged. -/
theorem iterate_of_not_running (bufSize blockSize : Nat) (threaded : Bool)
    (src : List Nat) (s : LoopState) (h : s.running = false) (k : Nat) :
    (step bufSize blockSize threaded src)^[k] s = s := by
  induction k with
  | zero => rfl
  | succ m ihm => rw [Function.iterate_succ_apply', ihm, step_not_running _ _ _ _ _ h]

/-- While the loop keeps running, every iteration advances the source read
position by at least one byte. -/
theorem running_srcPos_ge (bufSize blockSize : Nat) (threaded : Bool)
    (src : List Nat) (s0 : LoopState) (k : Nat)
    (h : ((step bufSize blockSize threaded src)^[k] s0).running = true) :
    s0.srcPos + k ≤ ((step bufSize blockSize threaded src)^[k] s0).srcPos := by
  induction k with
  | zero => simp
  | succ m ihm =>
    rw [Function.iterate_succ_apply'] at h ⊢
    obtain ⟨hrun, hc1, hc2, hsrc, _⟩ :=
      step_continue bufSize blockSize threaded src _ h
    rw [hsrc]
    have := ihm hrun
    have hL : 1 ≤ readLen src.length
        ((step bufSize blockSize threaded src)^[m] s0).srcPos bufSize := by omega
    omega

/-- The main loop has stopped after `src.length + 1` iterations. -/
theorem copyCore_not_running (bufSize blockSize : Nat) (threaded : Bool)
    (src dst : List Nat) :
    (copyCore bufSize blockSize threaded src dst).running = false := by
  rw [copyCore]
  rcases Bool.eq_false_or_eq_true
      ((step bufSize blockSize threaded src)^[src.length + 1]
        (initState bufSize dst)).running with hr | hr
  case inr => exact hr
  case inl =>
    exfalso
    have h1 := running_srcPos_ge bufSize blockSize threaded src
      (initState bufSize dst) (src.length + 1) hr
    have h2 := (arithInv_iterate bufSize blockSize threaded src dst
      (src.length + 1)).2.1
    have h0 : (initState bufSize dst).srcPos = 0 := rfl
    rw [h0] at h1
    omega

theorem listSlice_zero (l : List Nat) (b : Nat) : listSlice l 0 b = l.take b := by
  simp [listSlice]

/-- The sub-block scan, as invoked by one threaded iteration on a window of
length `src_len`, rewrites the destination window to the source window
(equal sub-blocks need no write because destination already agrees there),
adds the total size of its writes to the counter (at most the window
length), and only issues writes covering contiguous runs of differing
sub-blocks. -/
theorem stepScan_window (bufSize blockSize : Nat) (src : List Nat)
    (s : LoopState) (hbs : 1 ≤ blockSize) (hb1 : s.bufSrc.length = bufSize)
    (hfp : s.fp = s.dstPos)
    (hc2 : readLen src.length s.srcPos bufSize =
      readLen s.dst.length s.dstPos bufSize)
    (hD0 : readLen s.dst.length s.dstPos bufSize ≠ 0) :
    ∃ nws,
      scanLoop (readLen src.length s.srcPos bufSize + 1) blockSize
        (readLen src.length s.srcPos bufSize) s.fp
        (readBuf src s.srcPos (readLen src.length s.srcPos bufSize) s.bufSrc)
        (readBuf s.dst s.dstPos (readLen s.dst.length s.dstPos bufSize) s.bufDst)
        0 0 false s.dst s.bw s.writes
        = (writeAt s.dst s.fp
            ((readBuf src s.srcPos (readLen src.length s.srcPos bufSize) s.bufSrc).take
              (readLen src.length s.srcPos bufSize)),
           s.bw + (nws.map fun w => w.2.length).sum, s.writes ++ nws) ∧
      (nws.map fun w => w.2.length).sum ≤ readLen src.length s.srcPos bufSize ∧
      ∀ w ∈ nws, goodWrite blockSize (readLen src.length s.srcPos bufSize) s.fp
        (readBuf src s.srcPos (readLen src.length s.srcPos bufSize) s.bufSrc)
        (readBuf s.dst s.dstPos (readLen s.dst.length s.dstPos bufSize) s.bufDst) w := by
  have hLrem := readLen_le_rem src.length s.srcPos bufSize
  have hLbuf := readLen_le_buf src.length s.srcPos bufSize
  have hDrem := readLen_le_rem s.dst.length s.dstPos bufSize
  have hDpos : s.dstPos + readLen s.dst.length s.dstPos bufSize ≤ s.dst.length := by
    rw [readLen] at hD0 ⊢
    omega
  have hBSlen : (readBuf src s.srcPos (readLen src.length s.srcPos bufSize)
      s.bufSrc).length = bufSize := by
    rw [readBuf_length _ _ _ _ hLrem (by omega), hb1]
  obtain ⟨nws, heq, hbound, hgood⟩ := scanLoop_spec blockSize
    (readLen src.length s.srcPos bufSize) s.fp
    (readBuf src s.srcPos (readLen src.length s.srcPos bufSize) s.bufSrc)
    (readBuf s.dst s.dstPos (readLen s.dst.length s.dstPos bufSize) s.bufDst)
    hbs (by omega)
    (readLen src.length s.srcPos bufSize + 1) 0 0 false s.dst s.bw s.writes
    (by omega) (Nat.zero_le _) (Or.inl (dvd_zero _)) (by omega)
    (by
      intro i hi0 hiL
      rw [readBuf_getElem?_lt _ _ _ _ _ (by omega) hDrem, hfp])
    (by simp)
  refine ⟨nws, ?_, by simpa using hbound, hgood⟩
  rw [heq]
  simp only [Bool.false_eq_true, if_false, Nat.add_zero,
    listSlice_zero]

/-- Correctness invariant of the main loop: destination length is fixed, the
prefix below the cursor is already synced to the source, cursor and read
positions agree while running, and a non-mismatch stop means the whole
source was processed. -/
def loopInv (bufSize : Nat) (src : List Nat) (dlen : Nat) (s : LoopState) : Prop :=
  s.dst.length = dlen ∧
  (∀ j, j < s.fp → s.dst[j]? = src[j]?) ∧
  s.fp ≤ src.length ∧
  (s.running = true → s.fp = s.srcPos ∧ s.srcPos = s.dstPos ∧
    s.bufSrc.length = bufSize ∧ s.bufDst.length = bufSize) ∧
  (s.running = false → s.mismatch = true ∨ s.fp = src.length)

theorem loopInv_init (bufSize : Nat) (src dst0 : List Nat) :
    loopInv bufSize src dst0.length (initState bufSize dst0) := by
  refine ⟨rfl, ?_, Nat.zero_le _, ?_, ?_⟩
  · intro j hj
    cases hj
  · intro _
    exact ⟨rfl, rfl, List.length_replicate _ _, List.length_replicate _ _⟩
  · intro h
    cases h

theorem loopInv_step (bufSize blockSize : Nat) (threaded : Bool)
    (src : List Nat) (dlen : Nat) (s : LoopState)
    (hbuf : 1 ≤ bufSize) (hbs : 1 ≤ blockSize) (hsd : src.length ≤ dlen)
    (h : loopInv bufSize src dlen s) :
    loopInv bufSize src dlen (step bufSize blockSize threaded src s) := by
  obtain ⟨q1, q2, q3, q4, q5⟩ := h
  rcases Bool.eq_false_or_eq_true s.running with hr | hr
  case inr =>
    rw [step_not_running _ _ _ _ _ hr]
    exact ⟨q1, q2, q3, q4, q5⟩
  case inl =>
  obtain ⟨w1, w2, w3, w4⟩ := q4 hr
  rw [step_of_running _ _ _ _ _ hr]
  have hLrem := readLen_le_rem src.length s.srcPos bufSize
  have hLbuf := readLen_le_buf src.length s.srcPos bufSize
  have hDrem := readLen_le_rem s.dst.length s.dstPos bufSize
  have hDbuf := readLen_le_buf s.dst.length s.dstPos bufSize
  have hBSlen : (readBuf src s.srcPos (readLen src.length s.srcPos bufSize)
      s.bufSrc).length = bufSize := by
    rw [readBuf_length _ _ _ _ hLrem (by omega), w3]
  have hBDlen : (readBuf s.dst s.dstPos (readLen s.dst.length s.dstPos bufSize)
      s.bufDst).length = bufSize := by
    rw [readBuf_length _ _ _ _ hDrem (by omega), w4]
  by_cases hc1 : readLen src.length s.srcPos bufSize = 0 ∨
      readLen s.dst.length s.dstPos bufSize = 0
  · rw [stepRun_stop _ _ _ _ _ hc1]
    refine ⟨q1, q2, q3, by intro hx; simp at hx, ?_⟩
    intro _
    dsimp only
    rcases hc1 with hc | hc
    · rw [readLen_eq_zero hbuf] at hc
      right
      omega
    · rw [readLen_eq_zero hbuf] at hc
      right
      rw [q1] at hc
      omega
  · by_cases hc2 : readLen src.length s.srcPos bufSize =
        readLen s.dst.length s.dstPos bufSize
    · have hfpL : s.fp + readLen src.length s.srcPos bufSize ≤ s.dst.length := by
        omega
      have hwindow : ∀ j, s.fp ≤ j → j < s.fp + readLen src.length s.srcPos bufSize →
          ((readBuf src s.srcPos (readLen src.length s.srcPos bufSize) s.bufSrc).take
            (readLen src.length s.srcPos bufSize))[j - s.fp]? = src[j]? := by
        intro j hj1 hj2
        rw [readBuf_take _ _ _ _ hLrem,
          listSlice_getElem?_lt _ _ _ _ (by omega)]
        congr 1
        omega
      by_cases hc3 : readBuf src s.srcPos (readLen src.length s.srcPos bufSize) s.bufSrc =
          readBuf s.dst s.dstPos (readLen s.dst.length s.dstPos bufSize) s.bufDst
      · rw [stepRun_skip _ _ _ _ _ hc1 hc2 hc3]
        refine ⟨q1, ?_, by dsimp; omega, ?_, by intro hx; simp [hr] at hx⟩
        · dsimp
          intro j hj
          rcases lt_or_le j s.fp with hjf | hjf
          · exact q2 j hjf
          · have hBS := readBuf_getElem?_lt src s.srcPos
              (readLen src.length s.srcPos bufSize) s.bufSrc (j - s.fp) (by omega) hLrem
            have hBD := readBuf_getElem?_lt s.dst s.dstPos
              (readLen s.dst.length s.dstPos bufSize) s.bufDst (j - s.fp) (by omega) hDrem
            rw [hc3] at hBS
            rw [hBD] at hBS
            rw [show s.dstPos + (j - s.fp) = j by omega,
              show s.srcPos + (j - s.fp) = j by omega] at hBS
            exact hBS
        · intro _
          exact ⟨by dsimp; omega, by dsimp; omega, hBSlen, hBDlen⟩
      · have hwrite : ∀ j, (writeAt s.dst s.fp
            ((readBuf src s.srcPos (readLen src.length s.srcPos bufSize) s.bufSrc).take
              (readLen src.length s.srcPos bufSize)))[j]? =
            if s.fp ≤ j ∧ j < s.fp + readLen src.length s.srcPos bufSize then
              ((readBuf src s.srcPos (readLen src.length s.srcPos bufSize) s.bufSrc).take
                (readLen src.length s.srcPos bufSize))[j - s.fp]?
            else s.dst[j]? := by
          intro j
          have htl : ((readBuf src s.srcPos (readLen src.length s.srcPos bufSize)
              s.bufSrc).take (readLen src.length s.srcPos bufSize)).length =
              readLen src.length s.srcPos bufSize := by
            rw [List.length_take, hBSlen]
            omega
          have e := writeAt_getElem? s.dst s.fp _ (by rw [htl]; omega) j
          rw [htl] at e
          exact e
        have hwlen : (writeAt s.dst s.fp
            ((readBuf src s.srcPos (readLen src.length s.srcPos bufSize) s.bufSrc).take
              (readLen src.length s.srcPos bufSize))).length = s.dst.length := by
          apply writeAt_length
          rw [List.length_take, hBSlen]
          omega
        have hpost : ∀ j, j < s.fp + readLen src.length s.srcPos bufSize →
            (writeAt s.dst s.fp
              ((readBuf src s.srcPos (readLen src.length s.srcPos bufSize) s.bufSrc).take
                (readLen src.length s.srcPos bufSize)))[j]? = src[j]? := by
          intro j hj
          rw [hwrite j]
          by_cases hjf : s.fp ≤ j
          · rw [if_pos ⟨hjf, hj⟩]
            exact hwindow j hjf hj
          · rw [if_neg (by omega)]
            exact q2 j (by omega)
        cases threaded
        · rw [stepRun_write _ _ _ _ hc1 hc2 hc3]
          refine ⟨by dsimp; rw [hwlen, q1], ?_, by dsimp; omega, ?_,
            by intro hx; simp [hr] at hx⟩
          · dsimp
            intro j hj
            exact hpost j hj
          · intro _
            exact ⟨by dsimp; omega, by dsimp; omega, hBSlen, hBDlen⟩
        · rw [stepRun_scan _ _ _ _ hc1 hc2 hc3]
          obtain ⟨nws, heq, hbound, hgood⟩ := stepScan_window bufSize blockSize src s
            hbs w3 (by omega) hc2 (by omega)
          refine ⟨by dsimp; rw [heq]; dsimp; rw [hwlen, q1], ?_, by dsimp; omega, ?_,
            by intro hx; simp [hr] at hx⟩
          · dsimp
            rw [heq]
            dsimp
            intro j hj
            exact hpost j hj
          · intro _
            exact ⟨by dsimp; omega, by dsimp; omega, hBSlen, hBDlen⟩
    · rw [stepRun_mismatch _ _ _ _ _ hc1 hc2]
      exact ⟨q1, q2, q3, by intro hx; simp at hx, by intro _; left; rfl⟩

theorem loopInv_iterate (bufSize blockSize : Nat) (threaded : Bool)
    (src dst0 : List Nat) (hbuf : 1 ≤ bufSize) (hbs : 1 ≤ blockSize)
    (hsd : src.length ≤ dst0.length) (k : Nat) :
    loopInv bufSize src dst0.length
      ((step bufSize blockSize threaded src)^[k] (initState bufSize dst0)) := by
  induction k with
  | zero => exact loopInv_init bufSize src dst0
  | succ m ihm =>
    rw [Function.iterate_succ_apply']
    exact loopInv_step bufSize blockSize threaded src dst0.length _ hbuf hbs hsd ihm

/-- After the main loop, the destination has the same length, and unless the
loop stopped on a read-length mismatch, its prefix `[0, src.length)` equals
the source. -/
theorem copyCore_correct (bufSize blockSize : Nat) (threaded : Bool)
    (src dst0 : List Nat) (hbuf : 1 ≤ bufSize) (hbs : 1 ≤ blockSize)
    (hsd : src.length ≤ dst0.length) :
    (copyCore bufSize blockSize threaded src dst0).dst.length = dst0.length ∧
    ((copyCore bufSize blockSize threaded src dst0).mismatch = false →
      ∀ j, j < src.length →
        (copyCore bufSize blockSize threaded src dst0).dst[j]? = src[j]?) := by
  have hinv := loopInv_iterate bufSize blockSize threaded src dst0 hbuf hbs hsd
    (src.length + 1)
  have hnr := copyCore_not_running bufSize blockSize threaded src dst0
  rw [copyCore] at hnr ⊢
  obtain ⟨q1, q2, q3, _, q5⟩ := hinv
  refine ⟨q1, ?_⟩
  intro hmm j hj
  rcases q5 hnr with hm | hfp
  · rw [hmm] at hm
    cases hm
  · exact q2 j (by omega)

theorem truncateFile_length (dst : List Nat) (n : Nat) :
    (truncateFile dst n).length = n := by
  simp [truncateFile, List.length_take]
  omega

theorem prepareDst_some_length {rf : Bool} {S : Nat} {b : Bool} {dst d : List Nat}
    (hrf : rf = false)
    (h : prepareDst rf S b dst = some d) : S ≤ d.length := by
  subst hrf
  rw [prepareDst] at h
  by_cases h1 : dst.length ≠ S ∧ b = false
  · rw [if_pos h1] at h
    simp only [Bool.false_eq_true, if_false, Option.some_inj] at h
    rw [← h, truncateFile_length]
  · rw [if_neg h1] at h
    by_cases h2 : b = true ∧ dst.length < S
    · rw [if_pos h2] at h
      cases h
    · rw [if_neg h2] at h
      rw [Option.some_inj] at h
      subst h
      by_cases hb : b = true
      · have : ¬ dst.length < S := fun hlt => h2 ⟨hb, hlt⟩
        omega
      · have : dst.length = S := by
          by_contra hne
          exact h1 ⟨hne, by cases b; rfl; cases hb rfl⟩
        omega

theorem copyBytes_empty (rf : Bool) (bufSize blockSize : Nat) (threaded : Bool)
    (src : List Nat) (b : Bool) (dst : List Nat) (h : src.length = 0) :
    copyBytes rf bufSize blockSize threaded src b dst =
      { outcome := .emptySource, dst := dst, bw := 0, mismatch := false,
        writes := [] } := by
  rw [copyBytes, if_pos h]

theorem copyBytes_of_prepare (rf : Bool) (bufSize blockSize : Nat)
    (threaded : Bool) (src : List Nat) (b : Bool) (dst d : List Nat)
    (h0 : src.length ≠ 0) (hprep : prepareDst rf src.length b dst = some d) :
    copyBytes rf bufSize blockSize threaded src b dst =
      { outcome := .completed,
        dst := (copyCore bufSize blockSize threaded src d).dst,
        bw := (copyCore bufSize blockSize threaded src d).bw,
        mismatch := (copyCore bufSize blockSize threaded src d).mismatch,
        writes := (copyCore bufSize blockSize threaded src d).writes } := by
  rw [copyBytes, if_neg h0, hprep]

theorem copyBytes_tooSmall (rf : Bool) (bufSize blockSize : Nat)
    (threaded : Bool) (src dst : List Nat)
    (h0 : src.length ≠ 0) (hlt : dst.length < src.length) :
    copyBytes rf bufSize blockSize threaded src true dst =
      { outcome := .destTooSmall, dst := dst, bw := 0, mismatch := false,
        writes := [] } := by
  rw [copyBytes, if_neg h0, prepareDst,
    if_neg (by intro hc; cases hc.2), if_pos ⟨rfl, hlt⟩]

theorem prepareDst_truncate (S : Nat) (dst : List Nat) (hne : dst.length ≠ S) :
    prepareDst false S false dst = some (truncateFile dst S) := by
  rw [prepareDst, if_pos ⟨hne, rfl⟩]
  simp

theorem prepareDst_keep_regular (S : Nat) (dst : List Nat) (heq : dst.length = S) :
    ∀ rf, prepareDst rf S false dst = some dst := by
  intro rf
  rw [prepareDst, if_neg (by intro hc; exact hc.1 heq),
    if_neg (by intro hc; cases hc.1)]

theorem prepareDst_keep_block (S : Nat) (dst : List Nat) (hge : S ≤ dst.length) :
    ∀ rf, prepareDst rf S true dst = some dst := by
  intro rf
  rw [prepareDst, if_neg (by intro hc; cases hc.2),
    if_neg (by intro hc; exact absurd hc.2 (by omega))]

/-! ### Threaded versus un-threaded mode -/

/-- Relation between the threaded-mode state `t` and the un-threaded-mode
state `u` after the same number of iterations on the same inputs: every
field agrees except the bytes-written counter (threaded writes only the
differing sub-blocks) and the write trace. -/
def modeRel (t u : LoopState) : Prop :=
  t.running = u.running ∧ t.mismatch = u.mismatch ∧ t.srcPos = u.srcPos ∧
  t.dstPos = u.dstPos ∧ t.bufSrc = u.bufSrc ∧ t.bufDst = u.bufDst ∧
  t.dst = u.dst ∧ t.fp = u.fp ∧ t.bw ≤ u.bw

theorem modeRel_step (bufSize blockSize : Nat) (src : List Nat) (dlen : Nat)
    (hbs : 1 ≤ blockSize) (t u : LoopState) (hrel : modeRel t u)
    (hinvT : loopInv bufSize src dlen t) :
    modeRel (step bufSize blockSize true src t)
      (step bufSize blockSize false src u) := by
  obtain ⟨e1, e2, e3, e4, e5, e6, e7, e8, e9⟩ := hrel
  rcases Bool.eq_false_or_eq_true t.running with hr | hr
  case inr =>
    rw [step_not_running _ _ _ _ _ hr,
      step_not_running _ _ _ _ _ (e1 ▸ hr)]
    exact ⟨e1, e2, e3, e4, e5, e6, e7, e8, e9⟩
  case inl =>
  obtain ⟨_, q2, q3, q4, _⟩ := hinvT
  obtain ⟨w1, w2, w3, w4⟩ := q4 hr
  have hru : u.running = true := e1 ▸ hr
  rw [step_of_running _ _ _ _ _ hr, step_of_running _ _ _ _ _ hru]
  have hLu : readLen src.length u.srcPos bufSize =
      readLen src.length t.srcPos bufSize := by rw [e3]
  have hDu : readLen u.dst.length u.dstPos bufSize =
      readLen t.dst.length t.dstPos bufSize := by rw [e4, e7]
  have hBSu : readBuf src u.srcPos (readLen src.length u.srcPos bufSize) u.bufSrc =
      readBuf src t.srcPos (readLen src.length t.srcPos bufSize) t.bufSrc := by
    rw [e3, e5]
  have hBDu : readBuf u.dst u.dstPos (readLen u.dst.length u.dstPos bufSize) u.bufDst =
      readBuf t.dst t.dstPos (readLen t.dst.length t.dstPos bufSize) t.bufDst := by
    rw [e4, e6, e7]
  by_cases hc1 : readLen src.length t.srcPos bufSize = 0 ∨
      readLen t.dst.length t.dstPos bufSize = 0
  · rw [stepRun_stop _ _ _ _ _ hc1,
      stepRun_stop _ _ _ _ _ (by rw [hLu, hDu]; exact hc1)]
    exact ⟨rfl, e2, by dsimp; simp only [e3, e4, e7],
      by dsimp; simp only [e3, e4, e7], by dsimp; simp only [e3, e5],
      by dsimp; simp only [e4, e6, e7], e7, e8, e9⟩
  · by_cases hc2 : readLen src.length t.srcPos bufSize =
        readLen t.dst.length t.dstPos bufSize
    · by_cases hc3 : readBuf src t.srcPos (readLen src.length t.srcPos bufSize) t.bufSrc =
          readBuf t.dst t.dstPos (readLen t.dst.length t.dstPos bufSize) t.bufDst
      · rw [stepRun_skip _ _ _ _ _ hc1 hc2 hc3,
          stepRun_skip _ _ _ _ _ (by rw [hLu, hDu]; exact hc1)
            (by rw [hLu, hDu]; exact hc2) (by rw [hBSu, hBDu]; exact hc3)]
        exact ⟨e1, e2, by dsimp; simp only [e3, e4, e7],
          by dsimp; simp only [e3, e4, e7], by dsimp; simp only [e3, e5],
          by dsimp; simp only [e4, e6, e7], e7,
          by dsimp; simp only [e3, e8], by dsimp; omega⟩
      · rw [stepRun_scan _ _ _ _ hc1 hc2 hc3,
          stepRun_write _ _ _ _ (by rw [hLu, hDu]; exact hc1)
            (by rw [hLu, hDu]; exact hc2) (by rw [hBSu, hBDu]; exact hc3)]
        obtain ⟨nws, heq, hbound, _⟩ := stepScan_window bufSize blockSize src t hbs
          w3 (by omega) hc2 (by omega)
        refine ⟨e1, e2, by dsimp; simp only [e3, e4, e7],
          by dsimp; simp only [e3, e4, e7], by dsimp; simp only [e3, e5],
          by dsimp; simp only [e4, e6, e7], ?_, by dsimp; simp only [e3, e8], ?_⟩
        · dsimp
          rw [heq]
          dsimp
          simp only [e3, e5, e7, e8]
        · dsimp
          rw [heq]
          dsimp
          rw [hLu]
          omega
    · rw [stepRun_mismatch _ _ _ _ _ hc1 hc2,
        stepRun_mismatch _ _ _ _ _ (by rw [hLu, hDu]; exact hc1)
          (by rw [hLu, hDu]; exact hc2)]
      exact ⟨rfl, rfl, by dsimp; simp only [e3, e4, e7],
        by dsimp; simp only [e3, e4, e7], by dsimp; simp only [e3, e5],
        by dsimp; simp only [e4, e6, e7], e7, e8, e9⟩

theorem modeRel_iterate (bufSize blockSize : Nat) (src dst0 : List Nat)
    (hbuf : 1 ≤ bufSize) (hbs : 1 ≤ blockSize) (hsd : src.length ≤ dst0.length)
    (k : Nat) :
    modeRel ((step bufSize blockSize true src)^[k] (initState bufSize dst0))
      ((step bufSize blockSize false src)^[k] (initState bufSize dst0)) := by
  induction k with
  | zero => exact ⟨rfl, rfl, rfl, rfl, rfl, rfl, rfl, rfl, le_refl _⟩
  | succ m ihm =>
    rw [Function.iterate_succ_apply', Function.iterate_succ_apply']
    exact modeRel_step bufSize blockSize src dst0.length hbs _ _ ihm
      (loopInv_iterate bufSize blockSize true src dst0 hbuf hbs hsd m)

/-! ### Idempotence: a synced destination is never written -/

/-- Invariant of a run on a destination that already agrees with the source
on `[0, src.length)`: nothing is ever written and the two buffers stay
equal. -/
def syncedInv (bufSize : Nat) (dst0 : List Nat) (s : LoopState) : Prop :=
  s.dst = dst0 ∧ s.bw = 0 ∧ s.writes = [] ∧
  (s.running = true → s.srcPos = s.dstPos ∧ s.bufSrc = s.bufDst ∧
    s.bufSrc.length = bufSize ∧ s.bufDst.length = bufSize)

theorem syncedInv_step (bufSize blockSize : Nat) (threaded : Bool)
    (src dst0 : List Nat) (s : LoopState)
    (_hlen : src.length ≤ dst0.length)
    (hsync : ∀ j, j < src.length → dst0[j]? = src[j]?)
    (h : syncedInv bufSize dst0 s) :
    syncedInv bufSize dst0 (step bufSize blockSize threaded src s) := by
  obtain ⟨p1, p2, p3, p4⟩ := h
  rcases Bool.eq_false_or_eq_true s.running with hr | hr
  case inr =>
    rw [step_not_running _ _ _ _ _ hr]
    exact ⟨p1, p2, p3, p4⟩
  case inl =>
  obtain ⟨w1, w2, w3, w4⟩ := p4 hr
  rw [step_of_running _ _ _ _ _ hr]
  have hLrem := readLen_le_rem src.length s.srcPos bufSize
  have hDrem := readLen_le_rem s.dst.length s.dstPos bufSize
  have hLbuf := readLen_le_buf src.length s.srcPos bufSize
  have hDbuf := readLen_le_buf s.dst.length s.dstPos bufSize
  by_cases hc1 : readLen src.length s.srcPos bufSize = 0 ∨
      readLen s.dst.length s.dstPos bufSize = 0
  · rw [stepRun_stop _ _ _ _ _ hc1]
    exact ⟨p1, p2, p3, by intro hx; simp at hx⟩
  · by_cases hc2 : readLen src.length s.srcPos bufSize =
        readLen s.dst.length s.dstPos bufSize
    · have hc3 : readBuf src s.srcPos (readLen src.length s.srcPos bufSize) s.bufSrc =
          readBuf s.dst s.dstPos (readLen s.dst.length s.dstPos bufSize) s.bufDst := by
        rw [← hc2, readBuf, readBuf, w2, p1, ← w1]
        congr 1
        apply List.ext_getElem?
        intro i
        rcases lt_or_le i (readLen src.length s.srcPos bufSize) with hi | hi
        · rw [listSlice_getElem?_lt _ _ _ _ (by omega),
            listSlice_getElem?_lt _ _ _ _ (by omega)]
          have hj : s.srcPos + i < src.length := by omega
          exact (hsync (s.srcPos + i) hj).symm
        · rw [listSlice_getElem?_ge _ _ _ _ (by omega),
            listSlice_getElem?_ge _ _ _ _ (by omega)]
      · rw [stepRun_skip _ _ _ _ _ hc1 hc2 hc3]
        refine ⟨p1, p2, p3, ?_⟩
        intro _
        refine ⟨by dsimp; omega, by dsimp; rw [hc3], ?_, ?_⟩
        · dsimp
          rw [readBuf_length _ _ _ _ hLrem (by omega), w3]
        · dsimp
          rw [readBuf_length _ _ _ _ hDrem (by omega), w4]
    · rw [stepRun_mismatch _ _ _ _ _ hc1 hc2]
      exact ⟨p1, p2, p3, by intro hx; simp at hx⟩

/-- A run of the main loop on a destination already equal to the source over
`[0, src.length)` and at least as long writes nothing: the counter stays 0,
no `write_at` is issued, and the destination is untouched. -/
theorem copyCore_synced (bufSize blockSize : Nat) (threaded : Bool)
    (src dst0 : List Nat) (hlen : src.length ≤ dst0.length)
    (hsync : ∀ j, j < src.length → dst0[j]? = src[j]?) :
    (copyCore bufSize blockSize threaded src dst0).bw = 0 ∧
    (copyCore bufSize blockSize threaded src dst0).writes = [] ∧
    (copyCore bufSize blockSize threaded src dst0).dst = dst0 := by
  have h : ∀ k, syncedInv bufSize dst0
      ((step bufSize blockSize threaded src)^[k] (initState bufSize dst0)) := by
    intro k
    induction k with
    | zero =>
      refine ⟨rfl, rfl, rfl, ?_⟩
      intro _
      exact ⟨rfl, rfl, List.length_replicate _ _, List.length_replicate _ _⟩
    | succ m ihm =>
      rw [Function.iterate_succ_apply']
      exact syncedInv_step bufSize blockSize threaded src dst0 _ hlen hsync ihm
  obtain ⟨p1, p2, p3, _⟩ := h (src.length + 1)
  exact ⟨p2, p3, p1⟩

/-! ### Safety of the sub-block scan: bounds and termination -/

/-- The bounds-checked scan never fails and agrees with the plain scan:
every slice taken is in bounds and the `src_len - block_pos` subtraction
never underflows.  Holds for any fuel. -/
theorem scanLoopChecked_eq (blockSize n fp : Nat) (bufSrc bufDst : List Nat)
    (hsrc : n ≤ bufSrc.length) (hdstb : n ≤ bufDst.length) :
    ∀ fuel bsp bp (differ : Bool) (dst : List Nat) (bw : Nat)
      (ws : List (Nat × List Nat)), bp ≤ n → (differ = true → bsp ≤ bp) →
      scanLoopChecked fuel blockSize n fp bufSrc bufDst bsp bp differ dst bw ws
        = some (scanLoop fuel blockSize n fp bufSrc bufDst bsp bp differ dst bw ws) := by
  intro fuel
  induction fuel with
  | zero => intro bsp bp differ dst bw ws hbp hd; rfl
  | succ m ih =>
    intro bsp bp differ dst bw ws hbp hd
    have hsub : (if blockSize + bp > n then checkedSub n bp else some blockSize) =
        some (if blockSize + bp > n then n - bp else blockSize) := by
      by_cases hcap : blockSize + bp > n
      · rw [if_pos hcap, if_pos hcap, checkedSub, if_pos hbp]
      · rw [if_neg hcap, if_neg hcap]
    rw [scanLoopChecked, scanLoop_succ, hsub]
    dsimp only
    by_cases hstop : blockSize + bp > n ∧
        (if blockSize + bp > n then n - bp else blockSize) = 0
    · rw [if_pos hstop, if_pos hstop]
      cases differ
      · simp
      · have hbsp := hd rfl
        simp only [if_true]
        rw [checkedSlice, if_pos ⟨hbsp, by omega⟩]
    · rw [if_neg hstop, if_neg hstop]
      have hnbn : bp + (if blockSize + bp > n then n - bp else blockSize) ≤ n := by
        by_cases hcap : blockSize + bp > n
        · rw [if_pos hcap]; omega
        · rw [if_neg hcap]; omega
      have hs1 : checkedSlice bufSrc bp
          (bp + (if blockSize + bp > n then n - bp else blockSize)) =
          some (listSlice bufSrc bp
            (bp + (if blockSize + bp > n then n - bp else blockSize))) := by
        rw [checkedSlice, if_pos ⟨by omega, by omega⟩]
      have hs2 : checkedSlice bufDst bp
          (bp + (if blockSize + bp > n then n - bp else blockSize)) =
          some (listSlice bufDst bp
            (bp + (if blockSize + bp > n then n - bp else blockSize))) := by
        rw [checkedSlice, if_pos ⟨by omega, by omega⟩]
      rw [hs1, hs2]
      dsimp only
      by_cases hne : listSlice bufSrc bp
            (bp + (if blockSize + bp > n then n - bp else blockSize)) ≠
          listSlice bufDst bp (bp + (if blockSize + bp > n then n - bp else blockSize))
      · rw [if_pos hne, if_pos hne]
        refine ih _ _ true dst bw ws hnbn ?_
        intro _
        cases differ
        · simp only [Bool.false_eq_true, if_false]
          omega
        · simp only [if_true]
          have := hd rfl
          omega
      · rw [if_neg hne, if_neg hne]
        cases differ
        · simp only [Bool.false_eq_true, if_false]
          exact ih _ _ false dst bw ws hnbn (by intro hx; cases hx)
        · have hbsp := hd rfl
          simp only [if_true]
          have hs3 : checkedSlice bufSrc bsp bp = some (listSlice bufSrc bsp bp) := by
            rw [checkedSlice, if_pos ⟨hbsp, by omega⟩]
          rw [hs3]
          exact ih _ _ false _ _ _ hnbn (by intro hx; cases hx)

/-- The scan terminates: its result is independent of the fuel once the fuel
exceeds the remaining window length. -/
theorem scanLoop_fuel_irrel (blockSize n fp : Nat) (bufSrc bufDst : List Nat)
    (hbs : 1 ≤ blockSize) :
    ∀ fuel₁ fuel₂ bsp bp (differ : Bool) (dst : List Nat) (bw : Nat)
      (ws : List (Nat × List Nat)), bp ≤ n → n - bp < fuel₁ → n - bp < fuel₂ →
      scanLoop fuel₁ blockSize n fp bufSrc bufDst bsp bp differ dst bw ws =
        scanLoop fuel₂ blockSize n fp bufSrc bufDst bsp bp differ dst bw ws := by
  intro fuel₁
  induction fuel₁ with
  | zero => intro fuel₂ bsp bp differ dst bw ws hbp h1 h2; omega
  | succ m ih =>
    intro fuel₂ bsp bp differ dst bw ws hbp h1 h2
    rcases fuel₂ with _ | m₂
    · omega
    rcases eq_or_lt_of_le hbp with hbpn | hbpn
    · subst hbpn
      rw [scanLoop_succ_stop _ _ _ _ _ _ _ _ _ _ _ hbs,
        scanLoop_succ_stop _ _ _ _ _ _ _ _ _ _ _ hbs]
    · rw [scanLoop_succ_go _ _ _ _ _ _ _ _ _ _ _ _ hbpn,
        scanLoop_succ_go _ _ _ _ _ _ _ _ _ _ _ _ hbpn]
      have hlt : bp < min (bp + blockSize) n := by omega
      have hle : min (bp + blockSize) n ≤ n := by omega
      by_cases hne : listSlice bufSrc bp (min (bp + blockSize) n) ≠
          listSlice bufDst bp (min (bp + blockSize) n)
      · rw [if_pos hne, if_pos hne]
        exact ih m₂ _ _ true dst bw ws hle (by omega) (by omega)
      · rw [if_neg hne, if_neg hne]
        cases differ
        · simp only [Bool.false_eq_true, if_false]
          exact ih m₂ _ _ false dst bw ws hle (by omega) (by omega)
        · simp only [if_true]
          exact ih m₂ _ _ false _ _ _ hle (by omega) (by omega)

/-- The un-threaded loop body either writes nothing or issues exactly one
`write_at` covering the whole read window, logged at offset `fp`. -/
theorem step_unthreaded_write_shape (bufSize blockSize : Nat)
    (src : List Nat) (s : LoopState) :
    (step bufSize blockSize false src s).writes = s.writes ∨
    (step bufSize blockSize false src s).writes = s.writes ++
      [(s.fp, listSlice src s.srcPos
        (s.srcPos + readLen src.length s.srcPos bufSize))] := by
  rcases Bool.eq_false_or_eq_true s.running with hr | hr
  case inr => rw [step_not_running _ _ _ _ _ hr]; left; rfl
  case inl =>
  rw [step_of_running _ _ _ _ _ hr]
  by_cases hc1 : readLen src.length s.srcPos bufSize = 0 ∨
      readLen s.dst.length s.dstPos bufSize = 0
  · rw [stepRun_stop _ _ _ _ _ hc1]; left; rfl
  · by_cases hc2 : readLen src.length s.srcPos bufSize =
        readLen s.dst.length s.dstPos bufSize
    · by_cases hc3 : readBuf src s.srcPos (readLen src.length s.srcPos bufSize) s.bufSrc =
          readBuf s.dst s.dstPos (readLen s.dst.length s.dstPos bufSize) s.bufDst
      · rw [stepRun_skip _ _ _ _ _ hc1 hc2 hc3]; left; rfl
      · rw [stepRun_write _ _ _ _ hc1 hc2 hc3]
        right
        dsimp
        rw [readBuf_take _ _ _ _ (readLen_le_rem _ _ _)]
    · rw [stepRun_mismatch _ _ _ _ _ hc1 hc2]; left; rfl

/-- Total bytes written by a run never exceed the source size. -/
theorem copyCore_bw_le (bufSize blockSize : Nat) (threaded : Bool)
    (src dst : List Nat) :
    (copyCore bufSize blockSize threaded src dst).bw ≤ src.length := by
  obtain ⟨h1, h2, h3⟩ := arithInv_iterate bufSize blockSize threaded src dst
    (src.length + 1)
  rw [copyCore]
  omega

/-- Preparing a regular-file destination always leaves it at exactly the
source size. -/
theorem prepareDst_regular_length {S : Nat} {dst d : List Nat}
    (h : prepareDst false S false dst = some d) : d.length = S := by
  rw [prepareDst] at h
  by_cases h1 : dst.length ≠ S ∧ (false : Bool) = false
  · rw [if_pos h1] at h
    simp only [Bool.false_eq_true, if_false, Option.some_inj] at h
    rw [← h, truncateFile_length]
  · rw [if_neg h1, if_neg (by intro hc; cases hc.1)] at h
    rw [Option.some_inj] at h
    subst h
    by_contra hne
    exact h1 ⟨hne, rfl⟩

/-- Every write issued by one threaded iteration covers one contiguous run
of differing sub-blocks of that iteration's window. -/
theorem step_threaded_writes_good (bufSize blockSize : Nat) (src : List Nat)
    (s : LoopState) (hbs : 1 ≤ blockSize) (hb1 : s.bufSrc.length = bufSize)
    (hfp : s.fp = s.dstPos) :
    ∃ nws, (step bufSize blockSize true src s).writes = s.writes ++ nws ∧
      ∀ w ∈ nws, goodWrite blockSize (readLen src.length s.srcPos bufSize) s.fp
        (readBuf src s.srcPos (readLen src.length s.srcPos bufSize) s.bufSrc)
        (readBuf s.dst s.dstPos (readLen s.dst.length s.dstPos bufSize) s.bufDst) w := by
  rcases Bool.eq_false_or_eq_true s.running with hr | hr
  case inr =>
    rw [step_not_running _ _ _ _ _ hr]
    exact ⟨[], by simp, by intro w hw; cases hw⟩
  case inl =>
  rw [step_of_running _ _ _ _ _ hr]
  by_cases hc1 : readLen src.length s.srcPos bufSize = 0 ∨
      readLen s.dst.length s.dstPos bufSize = 0
  · rw [stepRun_stop _ _ _ _ _ hc1]
    exact ⟨[], by simp, by intro w hw; cases hw⟩
  · by_cases hc2 : readLen src.length s.srcPos bufSize =
        readLen s.dst.length s.dstPos bufSize
    · by_cases hc3 : readBuf src s.srcPos (readLen src.length s.srcPos bufSize) s.bufSrc =
          readBuf s.dst s.dstPos (readLen s.dst.length s.dstPos bufSize) s.bufDst
      · rw [stepRun_skip _ _ _ _ _ hc1 hc2 hc3]
        exact ⟨[], by simp, by intro w hw; cases hw⟩
      · rw [stepRun_scan _ _ _ _ hc1 hc2 hc3]
        obtain ⟨nws, heq, _, hgood⟩ := stepScan_window bufSize blockSize src s hbs
          hb1 hfp hc2 (by intro hx; exact hc1 (Or.inr hx))
        refine ⟨nws, ?_, hgood⟩
        dsimp
        rw [heq]
    · rw [stepRun_mismatch _ _ _ _ _ hc1 hc2]
      exact ⟨[], by simp, by intro w hw; cases hw⟩

/-! ### The claims -/

/-- C1: For every source content and every destination content (shorter,
longer, or equal to the source), after one run of `copy` that terminates
without error (it completed, and the loop did not stop on a read-length
mismatch), the destination bytes over `[0, src_size)` equal the source
bytes over `[0, src_size)`, in both threaded and un-threaded mode.  Stated
for positive buffer and comparison-block sizes (the CLI values are
multiples of 1 MiB and 1 KiB respectively). -/
theorem claim1_copy_correctness (bufSize blockSize : Nat)
    (threaded dstIsBlock : Bool) (src dst : List Nat)
    (hbuf : 1 ≤ bufSize) (hbs : 1 ≤ blockSize)
    (hok : (copyBytes false bufSize blockSize threaded src dstIsBlock dst).outcome =
      CopyOutcome.completed)
    (hmm : (copyBytes false bufSize blockSize threaded src dstIsBlock dst).mismatch =
      false) :
    ∀ j, j < src.length →
      (copyBytes false bufSize blockSize threaded src dstIsBlock dst).dst[j]? =
        src[j]? := by
  by_cases h0 : src.length = 0
  · intro j hj
    omega
  · cases hprep : prepareDst false src.length dstIsBlock dst with
    | none =>
      rw [copyBytes, if_neg h0, hprep] at hok
      simp at hok
    | some d =>
      rw [copyBytes_of_prepare false bufSize blockSize threaded src dstIsBlock dst d
        h0 hprep] at hmm ⊢
      dsimp at hmm ⊢
      exact (copyCore_correct bufSize blockSize threaded src d hbuf hbs
        (prepareDst_some_length rfl hprep)).2 hmm

/-- Witness for C1 at a concrete input: source `[1]`, empty regular-file
destination, un-threaded. -/
theorem claim1_witness :
    (copyBytes false 1 1 false [1] false []).dst[0]? = ([1] : List Nat)[0]? :=
  claim1_copy_correctness 1 1 false false [1] [] (by decide) (by decide)
    (by decide) (by decide) 0 (by decide)

/-- C2 counterexample: with a two-byte window and one-byte comparison blocks,
source `[1, 0]` against destination `[0, 0]` gives the same final
destination in both modes, but bytes-written 1 in threaded mode versus 2 in
un-threaded mode: the claim's "same total bytes-written counter" is false. -/
theorem claim2_counterexample :
    (copyBytes false 2 1 true [1, 0] false [0, 0]).dst =
      (copyBytes false 2 1 false [1, 0] false [0, 0]).dst ∧
    (copyBytes false 2 1 true [1, 0] false [0, 0]).bw = 1 ∧
    (copyBytes false 2 1 false [1, 0] false [0, 0]).bw = 2 ∧
    ¬ ((copyBytes false 2 1 true [1, 0] false [0, 0]).bw =
      (copyBytes false 2 1 false [1, 0] false [0, 0]).bw) := by
  decide

/-- C2 (amended): for the same inputs, buffer size, and comparison block
size, threaded and un-threaded mode produce the same outcome, the same
mismatch flag and the same final destination content, but the threaded
bytes-written counter is only at most the un-threaded one (threaded mode
writes only differing sub-blocks, un-threaded mode whole windows). -/
theorem claim2_amended (bufSize blockSize : Nat) (dstIsBlock : Bool)
    (src dst : List Nat) (hbuf : 1 ≤ bufSize) (hbs : 1 ≤ blockSize) :
    (copyBytes false bufSize blockSize true src dstIsBlock dst).outcome =
      (copyBytes false bufSize blockSize false src dstIsBlock dst).outcome ∧
    (copyBytes false bufSize blockSize true src dstIsBlock dst).mismatch =
      (copyBytes false bufSize blockSize false src dstIsBlock dst).mismatch ∧
    (copyBytes false bufSize blockSize true src dstIsBlock dst).dst =
      (copyBytes false bufSize blockSize false src dstIsBlock dst).dst ∧
    (copyBytes false bufSize blockSize true src dstIsBlock dst).bw ≤
      (copyBytes false bufSize blockSize false src dstIsBlock dst).bw := by
  by_cases h0 : src.length = 0
  · rw [copyBytes_empty _ _ _ _ _ _ _ h0, copyBytes_empty _ _ _ _ _ _ _ h0]
    exact ⟨rfl, rfl, rfl, le_refl _⟩
  · cases hprep : prepareDst false src.length dstIsBlock dst with
    | none =>
      rw [copyBytes, if_neg h0, hprep, copyBytes, if_neg h0, hprep]
      exact ⟨rfl, rfl, rfl, le_refl _⟩
    | some d =>
      rw [copyBytes_of_prepare false bufSize blockSize true src dstIsBlock dst d
          h0 hprep,
        copyBytes_of_prepare false bufSize blockSize false src dstIsBlock dst d
          h0 hprep]
      obtain ⟨e1, e2, _, _, _, _, e7, _, e9⟩ :=
        modeRel_iterate bufSize blockSize src d hbuf hbs
          (prepareDst_some_length rfl hprep) (src.length + 1)
      exact ⟨rfl, e2, e7, e9⟩

/-- Witness for C2 (amended) at a concrete input. -/
theorem claim2_witness :
    (copyBytes false 1 1 true [1] false []).outcome =
      (copyBytes false 1 1 false [1] false []).outcome ∧
    (copyBytes false 1 1 true [1] false []).mismatch =
      (copyBytes false 1 1 false [1] false []).mismatch ∧
    (copyBytes false 1 1 true [1] false []).dst =
      (copyBytes false 1 1 false [1] false []).dst ∧
    (copyBytes false 1 1 true [1] false []).bw ≤
      (copyBytes false 1 1 false [1] false []).bw :=
  claim2_amended 1 1 false [1] [] (by decide) (by decide)

/-- C5: Running `copy` twice in succession with the same parameters on the
same source/destination pair, where the first run terminates successfully
(completed, no read-length mismatch), yields a bytes-written counter of
zero (indeed, no `write_at` call at all) on the second run, in both
threaded and un-threaded mode. -/
theorem claim5_idempotent (bufSize blockSize : Nat) (threaded dstIsBlock : Bool)
    (src dst : List Nat) (hbuf : 1 ≤ bufSize) (hbs : 1 ≤ blockSize)
    (hok : (copyBytes false bufSize blockSize threaded src dstIsBlock dst).outcome =
      CopyOutcome.completed)
    (hmm : (copyBytes false bufSize blockSize threaded src dstIsBlock dst).mismatch =
      false) :
    (copyBytes false bufSize blockSize threaded src dstIsBlock
      (copyBytes false bufSize blockSize threaded src dstIsBlock dst).dst).bw = 0 ∧
    (copyBytes false bufSize blockSize threaded src dstIsBlock
      (copyBytes false bufSize blockSize threaded src dstIsBlock dst).dst).writes =
      [] := by
  by_cases h0 : src.length = 0
  · rw [copyBytes_empty _ _ _ _ _ _ _ h0] at hok
    simp at hok
  · cases hprep : prepareDst false src.length dstIsBlock dst with
    | none =>
      rw [copyBytes, if_neg h0, hprep] at hok
      simp at hok
    | some d =>
      rw [copyBytes_of_prepare false bufSize blockSize threaded src dstIsBlock dst d
        h0 hprep] at hmm ⊢
      dsimp at hmm ⊢
      obtain ⟨hlen1, hsync⟩ := copyCore_correct bufSize blockSize threaded src d
        hbuf hbs (prepareDst_some_length rfl hprep)
      have hsync' := hsync hmm
      have hge : src.length ≤ (copyCore bufSize blockSize threaded src d).dst.length := by
        rw [hlen1]
        exact prepareDst_some_length rfl hprep
      have hprep2 : prepareDst false src.length dstIsBlock
          (copyCore bufSize blockSize threaded src d).dst =
          some (copyCore bufSize blockSize threaded src d).dst := by
        cases hb : dstIsBlock
        · apply prepareDst_keep_regular
          rw [hlen1]
          subst hb
          exact prepareDst_regular_length hprep
        · exact prepareDst_keep_block _ _ hge false
      rw [copyBytes_of_prepare false bufSize blockSize threaded src dstIsBlock _ _
        h0 hprep2]
      dsimp
      obtain ⟨z1, z2, _⟩ := copyCore_synced bufSize blockSize threaded src
        (copyCore bufSize blockSize threaded src d).dst hge
        (fun j hj => hsync' j hj)
      exact ⟨z1, z2⟩

/-- Witness for C5 at a concrete input. -/
theorem claim5_witness :
    (copyBytes false 1 1 false [1] false
      (copyBytes false 1 1 false [1] false []).dst).bw = 0 ∧
    (copyBytes false 1 1 false [1] false
      (copyBytes false 1 1 false [1] false []).dst).writes = [] :=
  claim5_idempotent 1 1 false false [1] [] (by decide) (by decide) (by decide)
    (by decide)

/-- C3 counterexample: un-threaded run, three-byte window, one-byte
comparison blocks, source `[1, 0, 1]` against destination `[0, 0, 0]`: only
2 bytes differ, yet bytes-written is 3 and the single `write_at` call covers
the whole window `[1, 0, 1]`, spanning the equal middle sub-block — both
conjuncts of the claim fail. -/
theorem claim3_counterexample :
    (copyBytes false 3 1 false [1, 0, 1] false [0, 0, 0]).bw = 3 ∧
    diffBytes [1, 0, 1] [0, 0, 0] = 2 ∧
    (copyBytes false 3 1 false [1, 0, 1] false [0, 0, 0]).writes =
      [(0, [1, 0, 1])] ∧
    ¬ ((copyBytes false 3 1 false [1, 0, 1] false [0, 0, 0]).bw ≤
      diffBytes [1, 0, 1] [0, 0, 0]) := by
  decide

/-- C3 (amended): bytes-written can exceed the number of initially differing
bytes, but never the source size.  In un-threaded mode the comparison block
size is unused and every `write_at` call covers a whole read window (issued
at the cursor `fp`).  In threaded mode every `write_at` call issued by an
iteration covers exactly one contiguous run of sub-blocks of that
iteration's window, each of which differs between the two read buffers (so
no write spans an equal sub-block at its interior). -/
theorem claim3_amended :
    (∀ (bufSize blockSize : Nat) (threaded dstIsBlock : Bool) (src dst : List Nat),
      (copyBytes false bufSize blockSize threaded src dstIsBlock dst).bw ≤
        src.length) ∧
    (∀ (bufSize blockSize : Nat) (src : List Nat) (s : LoopState),
      (step bufSize blockSize false src s).writes = s.writes ∨
      (step bufSize blockSize false src s).writes = s.writes ++
        [(s.fp, listSlice src s.srcPos
          (s.srcPos + readLen src.length s.srcPos bufSize))]) ∧
    (∀ (bufSize blockSize : Nat) (src : List Nat) (s : LoopState),
      1 ≤ blockSize → s.bufSrc.length = bufSize → s.fp = s.dstPos →
      ∃ nws, (step bufSize blockSize true src s).writes = s.writes ++ nws ∧
        ∀ w ∈ nws, goodWrite blockSize (readLen src.length s.srcPos bufSize) s.fp
          (readBuf src s.srcPos (readLen src.length s.srcPos bufSize) s.bufSrc)
          (readBuf s.dst s.dstPos (readLen s.dst.length s.dstPos bufSize) s.bufDst)
          w) := by
  refine ⟨?_, ?_, ?_⟩
  · intro bufSize blockSize threaded dstIsBlock src dst
    by_cases h0 : src.length = 0
    · rw [copyBytes_empty _ _ _ _ _ _ _ h0]
      exact Nat.zero_le _
    · cases hprep : prepareDst false src.length dstIsBlock dst with
      | none =>
        rw [copyBytes, if_neg h0, hprep]
        exact Nat.zero_le _
      | some d =>
        rw [copyBytes_of_prepare false bufSize blockSize threaded src dstIsBlock
          dst d h0 hprep]
        exact copyCore_bw_le bufSize blockSize threaded src d
  · intro bufSize blockSize src s
    exact step_unthreaded_write_shape bufSize blockSize src s
  · intro bufSize blockSize src s hbs hb1 hfp
    exact step_threaded_writes_good bufSize blockSize src s hbs hb1 hfp

/-- Witness for C3 (amended), instantiating the threaded per-iteration part
at a concrete state and the run-level bound at a concrete run. -/
theorem claim3_witness :
    (copyBytes false 1 1 false [1] false []).bw ≤ 1 ∧
    (∃ nws, (step 1 1 true [1, 2] (initState 1 [0, 0])).writes =
        (initState 1 [0, 0]).writes ++ nws ∧
      ∀ w ∈ nws, goodWrite 1
        (readLen ([1, 2] : List Nat).length (initState 1 [0, 0]).srcPos 1)
        (initState 1 [0, 0]).fp
        (readBuf [1, 2] (initState 1 [0, 0]).srcPos
          (readLen ([1, 2] : List Nat).length (initState 1 [0, 0]).srcPos 1)
          (initState 1 [0, 0]).bufSrc)
        (readBuf (initState 1 [0, 0]).dst (initState 1 [0, 0]).dstPos
          (readLen (initState 1 [0, 0]).dst.length (initState 1 [0, 0]).dstPos 1)
          (initState 1 [0, 0]).bufDst) w) :=
  ⟨claim3_amended.1 1 1 false false [1] [],
   claim3_amended.2.2 1 1 [1, 2] (initState 1 [0, 0]) (by decide) (by decide)
     (by decide)⟩

/-- C4 counterexample: un-threaded run of source `[1, 1, 0]` onto
destination `[0, 0, 0]` with two-byte windows.  After one iteration the
final partial window (`[0]` on both sides) is byte-identical over
`[0, n)`, yet the iteration issues a `write_at` (the whole-buffer skip test
also compares the stale tails left from the first window, which differ). -/
theorem claim4_counterexample :
    listSlice [1, 1, 0]
        ((step 2 1 false [1, 1, 0])^[1] (initState 2 [0, 0, 0])).srcPos
        (((step 2 1 false [1, 1, 0])^[1] (initState 2 [0, 0, 0])).srcPos +
          readLen 3 ((step 2 1 false [1, 1, 0])^[1] (initState 2 [0, 0, 0])).srcPos 2) =
      listSlice ((step 2 1 false [1, 1, 0])^[1] (initState 2 [0, 0, 0])).dst
        ((step 2 1 false [1, 1, 0])^[1] (initState 2 [0, 0, 0])).dstPos
        (((step 2 1 false [1, 1, 0])^[1] (initState 2 [0, 0, 0])).dstPos +
          readLen 3 ((step 2 1 false [1, 1, 0])^[1] (initState 2 [0, 0, 0])).srcPos 2) ∧
    (step 2 1 false [1, 1, 0]
        ((step 2 1 false [1, 1, 0])^[1] (initState 2 [0, 0, 0]))).writes ≠
      ((step 2 1 false [1, 1, 0])^[1] (initState 2 [0, 0, 0])).writes ∧
    (step 2 1 false [1, 1, 0]
        ((step 2 1 false [1, 1, 0])^[1] (initState 2 [0, 0, 0]))).bw =
      ((step 2 1 false [1, 1, 0])^[1] (initState 2 [0, 0, 0])).bw + 1 := by
  decide

/-- C4 (amended): in an iteration whose source and destination read windows
are byte-identical over `[0, n)` (`n` the common read length), threaded mode
performs no write at all (destination and write trace unchanged), and
un-threaded mode leaves the destination content unchanged — but, unlike the
original claim, un-threaded mode may still issue a (content-preserving)
write call on a final partial window, because its skip test compares the
whole buffers including stale bytes beyond `n`. -/
theorem claim4_amended (bufSize blockSize : Nat) (src : List Nat)
    (s : LoopState) (hbs : 1 ≤ blockSize) (hb1 : s.bufSrc.length = bufSize)
    (hfp : s.fp = s.dstPos)
    (heqlen : readLen src.length s.srcPos bufSize =
      readLen s.dst.length s.dstPos bufSize)
    (hwin : listSlice src s.srcPos
        (s.srcPos + readLen src.length s.srcPos bufSize) =
      listSlice s.dst s.dstPos
        (s.dstPos + readLen s.dst.length s.dstPos bufSize)) :
    (step bufSize blockSize true src s).dst = s.dst ∧
    (step bufSize blockSize true src s).writes = s.writes ∧
    (step bufSize blockSize false src s).dst = s.dst := by
  have hLrem := readLen_le_rem src.length s.srcPos bufSize
  have hLbuf := readLen_le_buf src.length s.srcPos bufSize
  have hDrem := readLen_le_rem s.dst.length s.dstPos bufSize
  have hpt : ∀ i, i < readLen src.length s.srcPos bufSize →
      (readBuf src s.srcPos (readLen src.length s.srcPos bufSize) s.bufSrc)[i]? =
      (readBuf s.dst s.dstPos (readLen s.dst.length s.dstPos bufSize) s.bufDst)[i]? := by
    intro i hi
    rw [readBuf_getElem?_lt _ _ _ _ _ hi hLrem,
      readBuf_getElem?_lt _ _ _ _ _ (by omega) hDrem]
    have h1 := congrArg (fun t => t[i]?) hwin
    simp only at h1
    rw [listSlice_getElem?_lt _ _ _ _ (by omega),
      listSlice_getElem?_lt _ _ _ _ (by omega)] at h1
    exact h1
  have hdsteq : ∀ i, i < readLen src.length s.srcPos bufSize →
      s.dst[s.fp + i]? =
      (readBuf src s.srcPos (readLen src.length s.srcPos bufSize) s.bufSrc)[i]? := by
    intro i hi
    rw [readBuf_getElem?_lt _ _ _ _ _ hi hLrem]
    have h1 := congrArg (fun t => t[i]?) hwin
    simp only at h1
    rw [listSlice_getElem?_lt _ _ _ _ (by omega),
      listSlice_getElem?_lt _ _ _ _ (by omega)] at h1
    rw [hfp, h1]
  rcases Bool.eq_false_or_eq_true s.running with hr | hr
  case inr =>
    rw [step_not_running _ _ _ _ _ hr, step_not_running _ _ _ _ _ hr]
    exact ⟨rfl, rfl, rfl⟩
  case inl =>
  rw [step_of_running _ _ _ _ _ hr, step_of_running _ _ _ _ _ hr]
  by_cases hc1 : readLen src.length s.srcPos bufSize = 0 ∨
      readLen s.dst.length s.dstPos bufSize = 0
  · rw [stepRun_stop bufSize blockSize true src s hc1,
      stepRun_stop bufSize blockSize false src s hc1]
    exact ⟨rfl, rfl, rfl⟩
  · have hD0 : readLen s.dst.length s.dstPos bufSize ≠ 0 := by
      intro hx
      exact hc1 (Or.inr hx)
    have hfpL : s.fp + readLen src.length s.srcPos bufSize ≤ s.dst.length := by
      rw [readLen] at hD0
      omega
    by_cases hc3 : readBuf src s.srcPos (readLen src.length s.srcPos bufSize) s.bufSrc =
        readBuf s.dst s.dstPos (readLen s.dst.length s.dstPos bufSize) s.bufDst
    · rw [stepRun_skip bufSize blockSize true src s hc1 heqlen hc3,
        stepRun_skip bufSize blockSize false src s hc1 heqlen hc3]
      exact ⟨rfl, rfl, rfl⟩
    · have htake : ((readBuf src s.srcPos (readLen src.length s.srcPos bufSize)
          s.bufSrc).take (readLen src.length s.srcPos bufSize)).length =
          readLen src.length s.srcPos bufSize := by
        rw [List.length_take, readBuf_length _ _ _ _ hLrem (by omega)]
        omega
      have hself : writeAt s.dst s.fp
          ((readBuf src s.srcPos (readLen src.length s.srcPos bufSize) s.bufSrc).take
            (readLen src.length s.srcPos bufSize)) = s.dst := by
        apply writeAt_self
        · rw [htake]
          exact hfpL
        · intro i hi
          rw [htake] at hi
          rw [List.getElem?_take_of_lt hi]
          exact (hdsteq i hi).symm
      refine ⟨?_, ?_, ?_⟩
      · rw [stepRun_scan _ _ _ _ hc1 heqlen hc3]
        dsimp
        obtain ⟨nws, heq, _, _⟩ := stepScan_window bufSize blockSize src s hbs hb1
          hfp heqlen hD0
        rw [heq]
        dsimp
        exact hself
      · rw [stepRun_scan _ _ _ _ hc1 heqlen hc3]
        dsimp
        obtain ⟨nws, heq, _, hgood⟩ := stepScan_window bufSize blockSize src s hbs
          hb1 hfp heqlen hD0
        rw [heq]
        dsimp
        have hnil : nws = [] := by
          cases hnws : nws with
          | nil => rfl
          | cons w ws' =>
            exfalso
            obtain ⟨a, e, _, _, hae, hen, hdva, hdiffa⟩ :=
              hgood w (by rw [hnws]; exact List.mem_cons_self w ws')
            refine hdiffa a hdva (le_refl a) hae ?_
            apply listSlice_eq_of_getElem?_eq (a := 0)
              (b := readLen src.length s.srcPos bufSize) ?_ (Nat.zero_le a)
              (min_le_right _ _)
            intro j hj0 hjn
            exact hpt j hjn
        rw [hnil]
        simp
      · rw [stepRun_write _ _ _ _ hc1 heqlen hc3]
        dsimp
        exact hself

/-- Witness for C4 (amended) at a concrete state with identical windows. -/
theorem claim4_witness :
    (step 2 1 true [5, 5] (initState 2 [5, 5])).dst = (initState 2 [5, 5]).dst ∧
    (step 2 1 true [5, 5] (initState 2 [5, 5])).writes =
      (initState 2 [5, 5]).writes ∧
    (step 2 1 false [5, 5] (initState 2 [5, 5])).dst = (initState 2 [5, 5]).dst :=
  claim4_amended 2 1 [5, 5] (initState 2 [5, 5]) (by decide) (by decide)
    (by decide) (by decide) (by decide)

/-- C6: If the resolved source size is 0, `copy` aborts before opening the
destination for writing (the empty-source check at lines 131-134 precedes
the `OpenOptions::create(true)` call at line 143): the destination is not
created, not truncated and not written — the result carries the input
destination unchanged, a zero counter and an empty write trace — and the
abort is the clean reported `EmptySource` return, not a crash.  This holds
regardless of buffer size, block size, mode, destination kind, or whether
the (never reached) resize would fail. -/
theorem claim6_empty_source (resizeFails : Bool) (bufSize blockSize : Nat)
    (threaded dstIsBlock : Bool) (src dst : List Nat) (h : src.length = 0) :
    copyBytes resizeFails bufSize blockSize threaded src dstIsBlock dst =
      { outcome := CopyOutcome.emptySource, dst := dst, bw := 0,
        mismatch := false, writes := [] } :=
  copyBytes_empty resizeFails bufSize blockSize threaded src dstIsBlock dst h

/-- Witness for C6 at a concrete input. -/
theorem claim6_witness :
    copyBytes false 1 1 false [] false [7] =
      { outcome := CopyOutcome.emptySource, dst := [7], bw := 0,
        mismatch := false, writes := [] } :=
  claim6_empty_source false 1 1 false false [] [7] (by decide)

/-- C7: Destination preparation.  If the destination is a regular file of a
size different from the source, it is resized to exactly `src_size` bytes
before the comparison loop starts (the loop runs on the truncated
destination, whose length is exactly the source length); if the destination
is a block device smaller than the source, the whole copy aborts with
`DestinationTooSmall` and no bytes are written (zero counter, empty write
trace, destination unchanged). -/
theorem claim7_preparation (bufSize blockSize : Nat) (threaded : Bool)
    (src dst : List Nat) (h0 : src.length ≠ 0) :
    (dst.length ≠ src.length →
      copyBytes false bufSize blockSize threaded src false dst =
        { outcome := CopyOutcome.completed,
          dst := (copyCore bufSize blockSize threaded src
            (truncateFile dst src.length)).dst,
          bw := (copyCore bufSize blockSize threaded src
            (truncateFile dst src.length)).bw,
          mismatch := (copyCore bufSize blockSize threaded src
            (truncateFile dst src.length)).mismatch,
          writes := (copyCore bufSize blockSize threaded src
            (truncateFile dst src.length)).writes } ∧
      (truncateFile dst src.length).length = src.length) ∧
    (dst.length < src.length →
      copyBytes false bufSize blockSize threaded src true dst =
        { outcome := CopyOutcome.destTooSmall, dst := dst, bw := 0,
          mismatch := false, writes := [] }) := by
  constructor
  · intro hne
    exact ⟨copyBytes_of_prepare false bufSize blockSize threaded src false dst _
      h0 (prepareDst_truncate src.length dst hne), truncateFile_length dst src.length⟩
  · intro hlt
    exact copyBytes_tooSmall false bufSize blockSize threaded src dst h0 hlt

/-- Witness for C7 at concrete inputs (a regular file that is resized, and a
too-small block device). -/
theorem claim7_witness :
    (copyBytes false 1 1 false [1, 2] false [9] =
      { outcome := CopyOutcome.completed,
        dst := (copyCore 1 1 false [1, 2] (truncateFile [9] 2)).dst,
        bw := (copyCore 1 1 false [1, 2] (truncateFile [9] 2)).bw,
        mismatch := (copyCore 1 1 false [1, 2] (truncateFile [9] 2)).mismatch,
        writes := (copyCore 1 1 false [1, 2] (truncateFile [9] 2)).writes } ∧
      (truncateFile [9] 2).length = 2) ∧
    copyBytes false 1 1 false [1, 2] true [9] =
      { outcome := CopyOutcome.destTooSmall, dst := [9], bw := 0,
        mismatch := false, writes := [] } :=
  ⟨(claim7_preparation 1 1 false [1, 2] [9] (by decide)).1 (by decide),
   (claim7_preparation 1 1 false [1, 2] [9] (by decide)).2 (by decide)⟩

/-- C8: the code at line 154 discards the return value of `ftruncate64`,
so a failed resize of the destination is silently ignored and the copy
proceeds: here the resize of the 5-byte regular-file destination to 3 bytes
fails, yet the run completes, writes 2 bytes, and then stops on the
resulting read-length mismatch, leaving the destination corrupted (byte 2
still differs from the source).  Evaluating the model at the failing input
exhibits the bug; the claim (and the spec's `IoError` policy) says this
should have been fatal. -/
theorem claim8_resize_failure_ignored :
    copyBytes true 2 1 false [1, 1, 1] false [0, 0, 0, 0, 0] =
      { outcome := CopyOutcome.completed, dst := [1, 1, 0, 0, 0], bw := 2,
        mismatch := true, writes := [(0, [1, 1])] } ∧
    (copyBytes true 2 1 false [1, 1, 1] false [0, 0, 0, 0, 0]).dst[2]? ≠
      ([1, 1, 1] : List Nat)[2]? ∧
    copyBytes false 2 1 false [1, 1, 1] false [0, 0, 0, 0, 0] =
      { outcome := CopyOutcome.completed, dst := [1, 1, 1], bw := 3,
        mismatch := false, writes := [(0, [1, 1]), (2, [1])] } := by
  decide

/-- C9: Throughout a run, at every iteration boundary of the main loop, the
cursor `fp` is monotonically non-decreasing and never exceeds the source
size, and the bytes-written counter is monotonically non-decreasing and
never exceeds the cursor — in both modes, for any buffer and block sizes,
with no side conditions. -/
theorem claim9_cursor_counter_invariants (bufSize blockSize : Nat)
    (threaded : Bool) (src dst : List Nat) (k : Nat) :
    ((step bufSize blockSize threaded src)^[k] (initState bufSize dst)).fp ≤
      ((step bufSize blockSize threaded src)^[k + 1] (initState bufSize dst)).fp ∧
    ((step bufSize blockSize threaded src)^[k] (initState bufSize dst)).fp ≤
      src.length ∧
    ((step bufSize blockSize threaded src)^[k] (initState bufSize dst)).bw ≤
      ((step bufSize blockSize threaded src)^[k + 1] (initState bufSize dst)).bw ∧
    ((step bufSize blockSize threaded src)^[k] (initState bufSize dst)).bw ≤
      ((step bufSize blockSize threaded src)^[k] (initState bufSize dst)).fp := by
  have hk := arithInv_iterate bufSize blockSize threaded src dst k
  obtain ⟨hinv', hfp, hbw⟩ := arithInv_step bufSize blockSize threaded src _ hk
  rw [Function.iterate_succ_apply']
  obtain ⟨a1, a2, a3⟩ := hk
  exact ⟨hfp, by omega, hbw, a3⟩

/-- C10: Safety and termination of the threaded-mode sub-block scan on a
window of length `n ≥ 1` with any comparison block size `≥ 1` (including
block sizes larger than the window, via the cap `bsize := n - bp`): the
fully bounds-checked scan (every buffer slice checked against
`bsp ≤ bp ≤ nbp ≤` buffer length, and the `src_len - block_pos`
subtraction checked for underflow) never fails and agrees with the plain
scan for every fuel, and the scan terminates: its result is fixed once the
fuel exceeds the window length. -/
theorem claim10_scan_safety (blockSize n fp : Nat) (bufSrc bufDst dst : List Nat)
    (bw : Nat) (ws : List (Nat × List Nat)) (hbs : 1 ≤ blockSize) (hn : 1 ≤ n)
    (hsrc : n ≤ bufSrc.length) (hdstb : n ≤ bufDst.length) :
    (∀ fuel, scanLoopChecked fuel blockSize n fp bufSrc bufDst 0 0 false dst bw ws =
      some (scanLoop fuel blockSize n fp bufSrc bufDst 0 0 false dst bw ws)) ∧
    (∀ fuel, n < fuel →
      scanLoop fuel blockSize n fp bufSrc bufDst 0 0 false dst bw ws =
        scanLoop (n + 1) blockSize n fp bufSrc bufDst 0 0 false dst bw ws) := by
  constructor
  · intro fuel
    exact scanLoopChecked_eq blockSize n fp bufSrc bufDst hsrc hdstb fuel 0 0 false
      dst bw ws (Nat.zero_le n) (by intro hx; cases hx)
  · intro fuel hf
    exact scanLoop_fuel_irrel blockSize n fp bufSrc bufDst hbs fuel (n + 1) 0 0
      false dst bw ws (Nat.zero_le n) (by omega) (by omega)

/-- Witness for C10 at a concrete window. -/
theorem claim10_witness :
    scanLoopChecked 2 2 1 0 [1] [0] 0 0 false [9] 0 [] =
      some (scanLoop 2 2 1 0 [1] [0] 0 0 false [9] 0 []) ∧
    scanLoop 5 2 1 0 [1] [0] 0 0 false [9] 0 [] =
      scanLoop 2 2 1 0 [1] [0] 0 0 false [9] 0 [] :=
  ⟨(claim10_scan_safety 2 1 0 [1] [0] [9] 0 [] (by decide) (by decide) (by decide)
      (by decide)).1 2,
   (claim10_scan_safety 2 1 0 [1] [0] [9] 0 [] (by decide) (by decide) (by decide)
      (by decide)).2 5 (by decide)⟩

end LocalBlockSync
